import Mathlib

/-!
Verification of the Rachax402 on-chain agent registry subsystem: a shallow
embedding of the two Solidity contracts `AgentIdentityRegistry` and
`AgentReputationRegistry`, together with proofs of the stated data-structure
invariants, index-maintenance algorithms and numeric consistency guarantees.

Addresses are modelled as natural numbers (`0` plays the role of the zero
address), capability tags and CIDs as strings, the chain clock
`block.timestamp` as a natural number passed explicitly to each call, and
contract storage mappings as total functions with Solidity's default values.
Reverting calls are modelled in two layers: a `Raw` function that threads the
state statement-by-statement and stops at the first failed check, returning
the state as it stands at that point together with the error, and a derived
`Except` view giving the committed/rolled-back semantics.
-/

namespace Rachax

/-- Pointwise update of a total map, the model of a Solidity mapping write. -/
def setMap {α β : Type} [DecidableEq α] (f : α → β) (k : α) (v : β) : α → β :=
  fun x => if x = k then v else f x

theorem setMap_apply {α β : Type} [DecidableEq α] (f : α → β) (k : α) (v : β) (x : α) :
    setMap f k v x = if x = k then v else f x := rfl

theorem setMap_same {α β : Type} [DecidableEq α] (f : α → β) (k : α) (v : β) :
    setMap f k v k = v := by simp [setMap]

theorem setMap_ne {α β : Type} [DecidableEq α] (f : α → β) (k : α) (v : β)
    {x : α} (h : x ≠ k) : setMap f k v x = f x := by simp [setMap, h]

theorem setMap_setMap {α β : Type} [DecidableEq α] (f : α → β) (k : α) (v w : β) :
    setMap (setMap f k v) k w = setMap f k w := by
  funext x; by_cases h : x = k <;> simp [setMap, h]

/-- Agent addresses (the zero address is `0`). -/
abbrev Addr := Nat

/-! ## AgentIdentityRegistry -/

/-- `struct AgentInfo` of `AgentIdentityRegistry`. -/
structure AgentInfo where
  agentCardCID : String
  capabilityTags : List String
  isRegistered : Bool
deriving DecidableEq

/-- Default value of an `AgentInfo` storage slot. -/
def AgentInfo.default : AgentInfo := ⟨"", [], false⟩

/-- The storage of `AgentIdentityRegistry`, field for field. -/
structure IdState where
  s_agents : Addr → AgentInfo
  s_capabilityToAgents : String → List Addr
  s_agentIndexInCapability : String → Addr → Nat
  s_agentHasCapability : Addr → String → Bool
  s_registeredAgents : List Addr
  s_agentIndexInRegistry : Addr → Nat

/-- The state of a freshly deployed `AgentIdentityRegistry`. -/
def initIdState : IdState :=
  { s_agents := fun _ => AgentInfo.default
    s_capabilityToAgents := fun _ => []
    s_agentIndexInCapability := fun _ _ => 0
    s_agentHasCapability := fun _ _ => false
    s_registeredAgents := []
    s_agentIndexInRegistry := fun _ => 0 }

/-- The custom errors of `AgentIdentityRegistry`. -/
inductive IdErr where
  | agentAlreadyRegistered (agent : Addr)
  | agentNotRegistered (agent : Addr)
  | invalidCID
  | emptyCapabilityTags
deriving DecidableEq

/-- One iteration of the loop in `_addCapabilities`: skip empty tags, skip
tags the agent already has, otherwise append to the agent's tag list and to
the capability index, recording the position. -/
def _addCapability (agent : Addr) (capability : String) (s : IdState) : IdState :=
  if capability.length = 0 then s
  else if s.s_agentHasCapability agent capability then s
  else
    { s with
      s_agents := setMap s.s_agents agent
        { s.s_agents agent with
          capabilityTags := (s.s_agents agent).capabilityTags ++ [capability] }
      s_agentIndexInCapability := setMap s.s_agentIndexInCapability capability
        (setMap (s.s_agentIndexInCapability capability) agent
          (s.s_capabilityToAgents capability).length)
      s_capabilityToAgents := setMap s.s_capabilityToAgents capability
        (s.s_capabilityToAgents capability ++ [agent])
      s_agentHasCapability := setMap s.s_agentHasCapability agent
        (setMap (s.s_agentHasCapability agent) capability true) }

/-- `_addCapabilities` of `AgentIdentityRegistry`. -/
def _addCapabilities (agent : Addr) (capabilities : List String) (s : IdState) : IdState :=
  capabilities.foldl (fun st c => _addCapability agent c st) s

/-- One iteration of the loop in `_removeAllCapabilities`: swap-and-pop the
agent out of the tag's sequence, update the moved element's recorded
position, clear the agent's recorded position and membership flag. -/
def _removeCapability (agent : Addr) (capability : String) (s : IdState) : IdState :=
  let indexToRemove := s.s_agentIndexInCapability capability agent
  let arr := s.s_capabilityToAgents capability
  let lastIndex := arr.length - 1
  let s1 :=
    if indexToRemove ≠ lastIndex then
      let lastAgent := arr.getD lastIndex 0
      { s with
        s_capabilityToAgents := setMap s.s_capabilityToAgents capability
          (arr.set indexToRemove lastAgent)
        s_agentIndexInCapability := setMap s.s_agentIndexInCapability capability
          (setMap (s.s_agentIndexInCapability capability) lastAgent indexToRemove) }
    else s
  { s1 with
    s_capabilityToAgents := setMap s1.s_capabilityToAgents capability
      (s1.s_capabilityToAgents capability).dropLast
    s_agentIndexInCapability := setMap s1.s_agentIndexInCapability capability
      (setMap (s1.s_agentIndexInCapability capability) agent 0)
    s_agentHasCapability := setMap s1.s_agentHasCapability agent
      (setMap (s1.s_agentHasCapability agent) capability false) }

/-- `_removeAllCapabilities` of `AgentIdentityRegistry`: iterate over the
agent's current tag list (untouched by the loop body), swap-and-pop each tag,
then clear the agent's tag list. -/
def _removeAllCapabilities (agent : Addr) (s : IdState) : IdState :=
  let s' := ((s.s_agents agent).capabilityTags).foldl
    (fun st c => _removeCapability agent c st) s
  { s' with
    s_agents := setMap s'.s_agents agent
      { s'.s_agents agent with capabilityTags := [] } }

/-- `registerAgent`, threaded statement by statement: the state returned is
the state as it stands when the call returns or reverts (both checks run
before any write). -/
def registerAgentRaw (agentCardCID : String) (capabilityTags : List String)
    (caller : Addr) (s : IdState) : IdState × Option IdErr :=
  if agentCardCID.length = 0 then (s, some .invalidCID)
  else if (s.s_agents caller).isRegistered then (s, some (.agentAlreadyRegistered caller))
  else
    let s1 := { s with
      s_agents := setMap s.s_agents caller
        { s.s_agents caller with agentCardCID := agentCardCID, isRegistered := true }
      s_agentIndexInRegistry := setMap s.s_agentIndexInRegistry caller
        s.s_registeredAgents.length
      s_registeredAgents := s.s_registeredAgents ++ [caller] }
    (_addCapabilities caller capabilityTags s1, none)

/-- `registerAgent` with commit/rollback semantics. -/
def registerAgent (agentCardCID : String) (capabilityTags : List String)
    (caller : Addr) (s : IdState) : Except IdErr IdState :=
  match registerAgentRaw agentCardCID capabilityTags caller s with
  | (s', none) => .ok s'
  | (_, some e) => .error e

/-- `updateAgentCard`, threaded statement by statement.  The `onlyAgentOwner`
modifier runs before `validCID`. -/
def updateAgentCardRaw (newCID : String) (newCapabilityTags : List String)
    (caller : Addr) (s : IdState) : IdState × Option IdErr :=
  if ¬ (s.s_agents caller).isRegistered then (s, some (.agentNotRegistered caller))
  else if newCID.length = 0 then (s, some .invalidCID)
  else
    let s1 := _removeAllCapabilities caller s
    let s2 := { s1 with
      s_agents := setMap s1.s_agents caller
        { s1.s_agents caller with agentCardCID := newCID } }
    (_addCapabilities caller newCapabilityTags s2, none)

/-- `updateAgentCard` with commit/rollback semantics. -/
def updateAgentCard (newCID : String) (newCapabilityTags : List String)
    (caller : Addr) (s : IdState) : Except IdErr IdState :=
  match updateAgentCardRaw newCID newCapabilityTags caller s with
  | (s', none) => .ok s'
  | (_, some e) => .error e

/-- `getAgentCard`. -/
def getAgentCard (agent : Addr) (s : IdState) : Except IdErr String :=
  if ¬ (s.s_agents agent).isRegistered then .error (.agentNotRegistered agent)
  else .ok (s.s_agents agent).agentCardCID

/-- `getAgentCapabilities`. -/
def getAgentCapabilities (agent : Addr) (s : IdState) : Except IdErr (List String) :=
  if ¬ (s.s_agents agent).isRegistered then .error (.agentNotRegistered agent)
  else .ok (s.s_agents agent).capabilityTags

/-- `isAgentRegistered`. -/
def isAgentRegistered (agent : Addr) (s : IdState) : Bool :=
  (s.s_agents agent).isRegistered

/-- `getAgentsByCapability`. -/
def getAgentsByCapability (capability : String) (s : IdState) : List Addr :=
  s.s_capabilityToAgents capability

/-- `agentHasCapability`. -/
def agentHasCapability (agent : Addr) (capability : String) (s : IdState) : Bool :=
  s.s_agentHasCapability agent capability

/-- `getRegisteredAgentsCount`. -/
def getRegisteredAgentsCount (s : IdState) : Nat :=
  s.s_registeredAgents.length

/-- `getAllRegisteredAgents`. -/
def getAllRegisteredAgents (s : IdState) : List Addr :=
  s.s_registeredAgents

/-- The inner dedup scan of `discoverAgents`: append a candidate unless it is
already among the collected unique agents. -/
def collectUnique (acc : List Addr) (candidates : List Addr) : List Addr :=
  candidates.foldl (fun acc' a => if a ∈ acc' then acc' else acc' ++ [a]) acc

/-- `discoverAgents`: union over the query tags of each tag's index sequence,
deduplicated by a linear scan of the agents collected so far. -/
def discoverAgents (capabilityTags : List String) (s : IdState) :
    Except IdErr (List Addr × List String) :=
  if capabilityTags.length = 0 then .error .emptyCapabilityTags
  else
    let maxAgents := (capabilityTags.map (fun t => (s.s_capabilityToAgents t).length)).sum
    if maxAgents = 0 then .ok ([], [])
    else
      let agents := capabilityTags.foldl
        (fun acc t => collectUnique acc (s.s_capabilityToAgents t)) []
      .ok (agents, agents.map (fun a => (s.s_agents a).agentCardCID))

/-- From the spec's words: first-seen-order deduplication of a sequence. -/
def firstSeenDedup (l : List Addr) : List Addr :=
  l.foldl (fun acc a => if a ∈ acc then acc else acc ++ [a]) []

/-! ## AgentReputationRegistry -/

/-- `struct Rating` of `AgentReputationRegistry`. -/
structure Rating where
  rating : Nat
  comment : String
  proofCID : String
  timestamp : Nat
  rater : Addr
deriving DecidableEq

instance : Inhabited Rating := ⟨⟨0, "", "", 0, 0⟩⟩

/-- `struct AgentReputation` of `AgentReputationRegistry`. -/
structure AgentReputation where
  totalScore : Nat
  totalRatings : Nat
  ratingsCount : Nat
deriving DecidableEq

def MIN_RATING : Nat := 1
def MAX_RATING : Nat := 5
def SCORE_MULTIPLIER : Nat := 100
def RATE_LIMIT_PERIOD : Nat := 86400

/-- The storage of `AgentReputationRegistry`, field for field. -/
structure RepState where
  s_agentReputations : Addr → AgentReputation
  s_agentRatings : Addr → List Rating
  s_lastRatingTime : Addr → Addr → Nat
  s_ratedAgents : List Addr
  s_hasBeenRated : Addr → Bool

/-- The state of a freshly deployed `AgentReputationRegistry`. -/
def initRepState : RepState :=
  { s_agentReputations := fun _ => ⟨0, 0, 0⟩
    s_agentRatings := fun _ => []
    s_lastRatingTime := fun _ _ => 0
    s_ratedAgents := []
    s_hasBeenRated := fun _ => false }

/-- The custom errors of `AgentReputationRegistry`. -/
inductive RepErr where
  | invalidRating (rating : Nat)
  | invalidTargetAgent
  | cannotRateSelf
  | rateLimitExceeded (rater : Addr) (targetAgent : Addr) (nextAllowedTime : Nat)
  | noRatingsFound (agent : Addr)
  | invalidLimit
deriving DecidableEq

/-- `postReputation`, threaded statement by statement; the modifiers
`validTarget`, `validRating`, `rateLimitCheck` run in that order, all before
any write.  `now` is `block.timestamp`. -/
def postReputationRaw (targetAgent : Addr) (rating : Nat) (comment : String)
    (proofCID : String) (rater : Addr) (now : Nat) (s : RepState) :
    RepState × Option RepErr :=
  if targetAgent = 0 then (s, some .invalidTargetAgent)
  else if targetAgent = rater then (s, some .cannotRateSelf)
  else if rating < MIN_RATING ∨ rating > MAX_RATING then (s, some (.invalidRating rating))
  else if s.s_lastRatingTime rater targetAgent ≠ 0 ∧
      now < s.s_lastRatingTime rater targetAgent + RATE_LIMIT_PERIOD then
    (s, some (.rateLimitExceeded rater targetAgent
      (s.s_lastRatingTime rater targetAgent + RATE_LIMIT_PERIOD)))
  else
    let newRating : Rating := ⟨rating, comment, proofCID, now, rater⟩
    let s1 := { s with
      s_lastRatingTime := setMap s.s_lastRatingTime rater
        (setMap (s.s_lastRatingTime rater) targetAgent now)
      s_agentRatings := setMap s.s_agentRatings targetAgent
        (s.s_agentRatings targetAgent ++ [newRating])
      s_agentReputations := setMap s.s_agentReputations targetAgent
        { totalScore := (s.s_agentReputations targetAgent).totalScore
            + rating * SCORE_MULTIPLIER
          totalRatings := (s.s_agentReputations targetAgent).totalRatings + 1
          ratingsCount := (s.s_agentReputations targetAgent).ratingsCount + 1 } }
    let s2 :=
      if s1.s_hasBeenRated targetAgent = false then
        { s1 with
          s_hasBeenRated := setMap s1.s_hasBeenRated targetAgent true
          s_ratedAgents := s1.s_ratedAgents ++ [targetAgent] }
      else s1
    (s2, none)

/-- `postReputation` with commit/rollback semantics. -/
def postReputation (targetAgent : Addr) (rating : Nat) (comment : String)
    (proofCID : String) (rater : Addr) (now : Nat) (s : RepState) :
    Except RepErr RepState :=
  match postReputationRaw targetAgent rating comment proofCID rater now s with
  | (s', none) => .ok s'
  | (_, some e) => .error e

/-- `getReputationScore`. -/
def getReputationScore (agent : Addr) (s : RepState) : Nat × Nat :=
  let rep := s.s_agentReputations agent
  if rep.totalRatings = 0 then (0, 0)
  else (rep.totalScore / rep.totalRatings, rep.totalRatings)

/-- `getRecentRatings`: most recent first, at most `limit` of them. -/
def getRecentRatings (agent : Addr) (limit : Nat) (s : RepState) :
    Except RepErr (List Rating) :=
  if limit = 0 then .error .invalidLimit
  else
    let allRatings := s.s_agentRatings agent
    let totalRatings := allRatings.length
    if totalRatings = 0 then .ok []
    else
      let count := if limit > totalRatings then totalRatings else limit
      .ok ((List.range count).map (fun i => allRatings.getD (totalRatings - 1 - i) default))

/-- `getAllRatings`. -/
def getAllRatings (agent : Addr) (s : RepState) : List Rating :=
  s.s_agentRatings agent

/-- `getRatingsCount`. -/
def getRatingsCount (agent : Addr) (s : RepState) : Nat :=
  (s.s_agentRatings agent).length

/-- `canRate`: the read-only mirror of `rateLimitCheck`. -/
def canRate (rater : Addr) (targetAgent : Addr) (now : Nat) (s : RepState) :
    Bool × Nat :=
  let lastRating := s.s_lastRatingTime rater targetAgent
  if lastRating = 0 then (true, 0)
  else
    let nextAllowedTime := lastRating + RATE_LIMIT_PERIOD
    if now ≥ nextAllowedTime then (true, 0)
    else (false, nextAllowedTime)

/-- `hasBeenRated`. -/
def hasBeenRated (agent : Addr) (s : RepState) : Bool :=
  s.s_hasBeenRated agent

/-! ## Reachability -/

/-- The committed result of a `registerAgent` call: the new state on success,
the unchanged pre-state on revert. -/
def regStep (agentCardCID : String) (capabilityTags : List String)
    (caller : Addr) (s : IdState) : IdState :=
  match registerAgent agentCardCID capabilityTags caller s with
  | .ok s' => s'
  | .error _ => s

/-- The committed result of an `updateAgentCard` call. -/
def updStep (newCID : String) (newCapabilityTags : List String)
    (caller : Addr) (s : IdState) : IdState :=
  match updateAgentCard newCID newCapabilityTags caller s with
  | .ok s' => s'
  | .error _ => s

/-- Identity-registry states reachable from deployment by any sequence of
`registerAgent` / `updateAgentCard` calls. -/
inductive IdReach : IdState → Prop where
  | init : IdReach initIdState
  | register (cid : String) (tags : List String) (caller : Addr) {s : IdState} :
      IdReach s → IdReach (regStep cid tags caller s)
  | update (cid : String) (tags : List String) (caller : Addr) {s : IdState} :
      IdReach s → IdReach (updStep cid tags caller s)

/-- The committed result of a `postReputation` call. -/
def postStep (targetAgent : Addr) (rating : Nat) (comment : String)
    (proofCID : String) (rater : Addr) (now : Nat) (s : RepState) : RepState :=
  match postReputation targetAgent rating comment proofCID rater now s with
  | .ok s' => s'
  | .error _ => s

/-- Reputation-registry states reachable from deployment by any sequence of
`postReputation` calls. -/
inductive RepReach : RepState → Prop where
  | init : RepReach initRepState
  | post (targetAgent : Addr) (rating : Nat) (comment : String)
      (proofCID : String) (rater : Addr) (now : Nat) {s : RepState} :
      RepReach s → RepReach (postStep targetAgent rating comment proofCID rater now s)

/-! ## The capability-index invariant -/

/-- The bookkeeping invariant of `AgentIdentityRegistry`: three-way
consistency between the membership flags, the per-agent tag lists and the
capability index; no duplicate or empty tags; no duplicate index entries;
the recorded positions point back at their agents; and an unregistered
address has an empty tag list. -/
structure IdInv (s : IdState) : Prop where
  memIff : ∀ a t, s.s_agentHasCapability a t = true ↔ t ∈ (s.s_agents a).capabilityTags
  idxIff : ∀ a t, s.s_agentHasCapability a t = true ↔ a ∈ s.s_capabilityToAgents t
  tagsNodup : ∀ a, (s.s_agents a).capabilityTags.Nodup
  tagsNonempty : ∀ a t, t ∈ (s.s_agents a).capabilityTags → t.length ≠ 0
  arrNodup : ∀ t, (s.s_capabilityToAgents t).Nodup
  posOk : ∀ t a, a ∈ s.s_capabilityToAgents t →
    (s.s_capabilityToAgents t)[s.s_agentIndexInCapability t a]? = some a
  unregEmpty : ∀ a, (s.s_agents a).isRegistered = false →
    (s.s_agents a).capabilityTags = []

theorem idInv_init : IdInv initIdState := by
  constructor <;> simp [initIdState, AgentInfo.default]

/-- From the spec's words: the tag list produced by adding `caps` on top of
`old`, skipping empty tags and tags already present. -/
def addTagsSpec (old : List String) (caps : List String) : List String :=
  caps.foldl (fun acc t => if t.length = 0 ∨ t ∈ acc then acc else acc ++ [t]) old

theorem addTagsSpec_nil (old : List String) : addTagsSpec old [] = old := rfl

theorem addTagsSpec_cons (old : List String) (c : String) (caps : List String) :
    addTagsSpec old (c :: caps) =
      addTagsSpec (if c.length = 0 ∨ c ∈ old then old else old ++ [c]) caps := by
  simp only [addTagsSpec, List.foldl_cons]

theorem addTagsSpec_mem (caps : List String) :
    ∀ (old : List String) (t : String),
      t ∈ addTagsSpec old caps ↔ t ∈ old ∨ (t ∈ caps ∧ t.length ≠ 0) := by
  induction caps with
  | nil => simp [addTagsSpec_nil]
  | cons c rest ih =>
    intro old t
    rw [addTagsSpec_cons]
    by_cases hc : c.length = 0 ∨ c ∈ old
    · simp only [if_pos hc, ih]
      constructor
      · rintro (h | h)
        · exact Or.inl h
        · exact Or.inr ⟨List.mem_cons_of_mem _ h.1, h.2⟩
      · rintro (h | ⟨hm, hl⟩)
        · exact Or.inl h
        · rcases List.mem_cons.1 hm with rfl | hm'
          · rcases hc with hc | hc
            · exact absurd hc hl
            · exact Or.inl hc
          · exact Or.inr ⟨hm', hl⟩
    · rw [if_neg hc, ih]
      push_neg at hc
      constructor
      · rintro (h | h)
        · rcases List.mem_append.1 h with h' | h'
          · exact Or.inl h'
          · rcases List.mem_singleton.1 h' with rfl
            exact Or.inr ⟨List.mem_cons_self _ _, hc.1⟩
        · exact Or.inr ⟨List.mem_cons_of_mem _ h.1, h.2⟩
      · rintro (h | ⟨hm, hl⟩)
        · exact Or.inl (List.mem_append.2 (Or.inl h))
        · rcases List.mem_cons.1 hm with rfl | hm'
          · exact Or.inl (List.mem_append.2 (Or.inr (List.mem_singleton.2 rfl)))
          · exact Or.inr ⟨hm', hl⟩

/-! ### Lemmas about `_addCapability` / `_addCapabilities` -/

theorem addCapability_skip_empty {c : String} (agent : Addr) (s : IdState)
    (h0 : c.length = 0) : _addCapability agent c s = s := by
  unfold _addCapability; rw [if_pos h0]

theorem addCapability_skip_has {agent : Addr} {c : String} {s : IdState}
    (h0 : c.length ≠ 0) (h1 : s.s_agentHasCapability agent c = true) :
    _addCapability agent c s = s := by
  unfold _addCapability; rw [if_neg h0, if_pos h1]

theorem addCapability_eq {agent : Addr} {c : String} {s : IdState}
    (h0 : c.length ≠ 0) (h1 : ¬ s.s_agentHasCapability agent c = true) :
    _addCapability agent c s =
      { s with
        s_agents := setMap s.s_agents agent
          { s.s_agents agent with
            capabilityTags := (s.s_agents agent).capabilityTags ++ [c] }
        s_agentIndexInCapability := setMap s.s_agentIndexInCapability c
          (setMap (s.s_agentIndexInCapability c) agent
            (s.s_capabilityToAgents c).length)
        s_capabilityToAgents := setMap s.s_capabilityToAgents c
          (s.s_capabilityToAgents c ++ [agent])
        s_agentHasCapability := setMap s.s_agentHasCapability agent
          (setMap (s.s_agentHasCapability agent) c true) } := by
  unfold _addCapability; rw [if_neg h0, if_neg h1]

/-- Fields of the state that `_addCapability` never touches, and the parts of
the touched fields that belong to other agents. -/
theorem addCapability_frame (agent : Addr) (c : String) (s : IdState) :
    (_addCapability agent c s).s_registeredAgents = s.s_registeredAgents ∧
    (_addCapability agent c s).s_agentIndexInRegistry = s.s_agentIndexInRegistry ∧
    (∀ b, b ≠ agent → (_addCapability agent c s).s_agents b = s.s_agents b) ∧
    (∀ b, b ≠ agent →
      (_addCapability agent c s).s_agentHasCapability b = s.s_agentHasCapability b) ∧
    ((_addCapability agent c s).s_agents agent).agentCardCID
      = (s.s_agents agent).agentCardCID ∧
    ((_addCapability agent c s).s_agents agent).isRegistered
      = (s.s_agents agent).isRegistered ∧
    (∀ t b, b ≠ agent →
      (b ∈ (_addCapability agent c s).s_capabilityToAgents t ↔
        b ∈ s.s_capabilityToAgents t)) := by
  by_cases h0 : c.length = 0
  · rw [addCapability_skip_empty agent s h0]
    exact ⟨rfl, rfl, fun _ _ => rfl, fun _ _ => rfl, rfl, rfl, fun _ _ _ => Iff.rfl⟩
  by_cases h1 : s.s_agentHasCapability agent c = true
  · rw [addCapability_skip_has h0 h1]
    exact ⟨rfl, rfl, fun _ _ => rfl, fun _ _ => rfl, rfl, rfl, fun _ _ _ => Iff.rfl⟩
  refine ⟨?_, ?_, ?_, ?_, ?_, ?_, ?_⟩
  · simp only [addCapability_eq h0 h1]
  · simp only [addCapability_eq h0 h1]
  · intro b hb
    simp only [addCapability_eq h0 h1]
    exact setMap_ne _ _ _ hb
  · intro b hb
    simp only [addCapability_eq h0 h1]
    exact setMap_ne _ _ _ hb
  · simp only [addCapability_eq h0 h1, setMap_same]
  · simp only [addCapability_eq h0 h1, setMap_same]
  · intro t b hb
    simp only [addCapability_eq h0 h1]
    by_cases ht : t = c
    · subst ht; rw [setMap_same]; simp [hb]
    · rw [setMap_ne _ _ _ ht]

/-- `_addCapability` preserves the registry invariant (the contract only
calls it on a registered agent). -/
theorem addCapability_inv (agent : Addr) (c : String) (s : IdState)
    (hr : (s.s_agents agent).isRegistered = true)
    (h : IdInv s) : IdInv (_addCapability agent c s) := by
  by_cases h0 : c.length = 0
  · rw [addCapability_skip_empty agent s h0]; exact h
  by_cases h1 : s.s_agentHasCapability agent c = true
  · rw [addCapability_skip_has h0 h1]; exact h
  have hcm : c ∉ (s.s_agents agent).capabilityTags := fun hm =>
    h1 ((h.memIff agent c).2 hm)
  have hca : agent ∉ s.s_capabilityToAgents c := fun hm =>
    h1 ((h.idxIff agent c).2 hm)
  constructor
  · intro a t
    simp only [addCapability_eq h0 h1]
    by_cases ha : a = agent
    · subst ha
      rw [setMap_same, setMap_same]
      by_cases ht : t = c
      · subst ht; rw [setMap_same]; simp
      · rw [setMap_ne _ _ _ ht]
        simp only [List.mem_append, List.mem_singleton]
        rw [h.memIff]
        exact ⟨fun hx => Or.inl hx, fun hx => hx.resolve_right ht⟩
    · rw [setMap_ne _ _ _ ha, setMap_ne _ _ _ ha]
      exact h.memIff a t
  · intro a t
    simp only [addCapability_eq h0 h1]
    by_cases ht : t = c
    · subst ht
      rw [setMap_same]
      by_cases ha : a = agent
      · subst ha
        rw [setMap_same, setMap_same]
        simp
      · rw [setMap_ne _ _ _ ha]
        simp only [List.mem_append, List.mem_singleton]
        rw [h.idxIff]
        exact ⟨fun hx => Or.inl hx, fun hx => hx.resolve_right ha⟩
    · rw [setMap_ne _ _ _ ht]
      by_cases ha : a = agent
      · subst ha
        rw [setMap_same, setMap_ne _ _ _ ht]
        exact h.idxIff a t
      · rw [setMap_ne _ _ _ ha]
        exact h.idxIff a t
  · intro a
    simp only [addCapability_eq h0 h1]
    by_cases ha : a = agent
    · subst ha
      rw [setMap_same]
      refine (h.tagsNodup a).append (List.nodup_singleton c) ?_
      intro x hx hxc
      rcases List.mem_singleton.1 hxc with rfl
      exact hcm hx
    · rw [setMap_ne _ _ _ ha]; exact h.tagsNodup a
  · intro a t hm
    simp only [addCapability_eq h0 h1] at hm
    by_cases ha : a = agent
    · subst ha
      rw [setMap_same] at hm
      rcases List.mem_append.1 hm with hm' | hm'
      · exact h.tagsNonempty a t hm'
      · rcases List.mem_singleton.1 hm' with rfl; exact h0
    · rw [setMap_ne _ _ _ ha] at hm; exact h.tagsNonempty a t hm
  · intro t
    simp only [addCapability_eq h0 h1]
    by_cases ht : t = c
    · subst ht
      rw [setMap_same]
      refine (h.arrNodup t).append (List.nodup_singleton agent) ?_
      intro x hx hxa
      rcases List.mem_singleton.1 hxa with rfl
      exact hca hx
    · rw [setMap_ne _ _ _ ht]; exact h.arrNodup t
  · intro t a hm
    simp only [addCapability_eq h0 h1] at hm ⊢
    by_cases ht : t = c
    · subst ht
      rw [setMap_same] at hm ⊢
      rw [setMap_same]
      by_cases ha : a = agent
      · subst ha
        rw [setMap_same]
        rw [List.getElem?_append_right (by omega)]
        simp
      · rw [setMap_ne _ _ _ ha]
        have hm' : a ∈ s.s_capabilityToAgents t := by
          rcases List.mem_append.1 hm with h' | h'
          · exact h'
          · exact absurd (List.mem_singleton.1 h') ha
        have hpos := h.posOk t a hm'
        have hlt : s.s_agentIndexInCapability t a < (s.s_capabilityToAgents t).length := by
          rcases List.getElem?_eq_some.1 hpos with ⟨hw, _⟩; exact hw
        rw [List.getElem?_append_left hlt]
        exact hpos
    · rw [setMap_ne _ _ _ ht] at hm ⊢
      rw [setMap_ne _ _ _ ht]
      exact h.posOk t a hm
  · intro a hreg
    simp only [addCapability_eq h0 h1] at hreg ⊢
    by_cases ha : a = agent
    · subst ha
      rw [setMap_same] at hreg
      exact absurd hr (by simp_all)
    · rw [setMap_ne _ _ _ ha] at hreg ⊢
      exact h.unregEmpty a hreg

theorem addCapabilities_nil (agent : Addr) (s : IdState) :
    _addCapabilities agent [] s = s := rfl

theorem addCapabilities_cons (agent : Addr) (c : String) (caps : List String)
    (s : IdState) :
    _addCapabilities agent (c :: caps) s =
      _addCapabilities agent caps (_addCapability agent c s) := rfl

/-- Fields that `_addCapabilities` never touches, and the parts of the
touched fields that belong to other agents. -/
theorem addCapabilities_frame (agent : Addr) (caps : List String) :
    ∀ s : IdState,
    (_addCapabilities agent caps s).s_registeredAgents = s.s_registeredAgents ∧
    (_addCapabilities agent caps s).s_agentIndexInRegistry = s.s_agentIndexInRegistry ∧
    (∀ b, b ≠ agent → (_addCapabilities agent caps s).s_agents b = s.s_agents b) ∧
    (∀ b, b ≠ agent →
      (_addCapabilities agent caps s).s_agentHasCapability b
        = s.s_agentHasCapability b) ∧
    ((_addCapabilities agent caps s).s_agents agent).agentCardCID
      = (s.s_agents agent).agentCardCID ∧
    ((_addCapabilities agent caps s).s_agents agent).isRegistered
      = (s.s_agents agent).isRegistered ∧
    (∀ t b, b ≠ agent →
      (b ∈ (_addCapabilities agent caps s).s_capabilityToAgents t ↔
        b ∈ s.s_capabilityToAgents t)) := by
  induction caps with
  | nil =>
    intro s
    exact ⟨rfl, rfl, fun _ _ => rfl, fun _ _ => rfl, rfl, rfl, fun _ _ _ => Iff.rfl⟩
  | cons c rest ih =>
    intro s
    rw [addCapabilities_cons]
    obtain ⟨f1, f2, f3, f4, f5, f6, f7⟩ := addCapability_frame agent c s
    obtain ⟨g1, g2, g3, g4, g5, g6, g7⟩ := ih (_addCapability agent c s)
    refine ⟨g1.trans f1, g2.trans f2, ?_, ?_, ?_, ?_, ?_⟩
    · intro b hb; exact (g3 b hb).trans (f3 b hb)
    · intro b hb; exact (g4 b hb).trans (f4 b hb)
    · exact g5.trans f5
    · exact g6.trans f6
    · intro t b hb; exact (g7 t b hb).trans (f7 t b hb)

/-- `_addCapabilities` preserves the registry invariant when the agent is
registered. -/
theorem addCapabilities_inv (agent : Addr) (caps : List String) :
    ∀ s : IdState, (s.s_agents agent).isRegistered = true → IdInv s →
      IdInv (_addCapabilities agent caps s) := by
  induction caps with
  | nil => intro s _ h; exact h
  | cons c rest ih =>
    intro s hr h
    rw [addCapabilities_cons]
    have hr' : ((_addCapability agent c s).s_agents agent).isRegistered = true := by
      obtain ⟨_, _, _, _, _, f6, _⟩ := addCapability_frame agent c s
      rw [f6]; exact hr
    exact ih _ hr' (addCapability_inv agent c s hr h)

/-- The tag list written by `_addCapabilities`: on top of the agent's current
tags it appends exactly the non-empty, not-yet-present tags, in array
order. -/
theorem addCapabilities_tags (agent : Addr) (caps : List String) :
    ∀ s : IdState, (s.s_agents agent).isRegistered = true → IdInv s →
      ((_addCapabilities agent caps s).s_agents agent).capabilityTags
        = addTagsSpec ((s.s_agents agent).capabilityTags) caps := by
  induction caps with
  | nil => intro s _ _; rw [addCapabilities_nil, addTagsSpec_nil]
  | cons c rest ih =>
    intro s hr h
    rw [addCapabilities_cons, addTagsSpec_cons]
    have hr' : ((_addCapability agent c s).s_agents agent).isRegistered = true := by
      obtain ⟨_, _, _, _, _, f6, _⟩ := addCapability_frame agent c s
      rw [f6]; exact hr
    rw [ih _ hr' (addCapability_inv agent c s hr h)]
    congr 1
    by_cases h0 : c.length = 0
    · rw [addCapability_skip_empty agent s h0, if_pos (Or.inl h0)]
    by_cases h1 : s.s_agentHasCapability agent c = true
    · rw [addCapability_skip_has h0 h1,
        if_pos (Or.inr ((h.memIff agent c).1 h1))]
    · have hcm : c ∉ (s.s_agents agent).capabilityTags := fun hm =>
        h1 ((h.memIff agent c).2 hm)
      rw [if_neg (by push_neg; exact ⟨h0, hcm⟩)]
      simp only [addCapability_eq h0 h1, setMap_same]

/-! ### The swap-and-pop removal step, as a pure list manipulation -/

/-- Removing the element recorded at the last position: plain pop.  The
position map and the sequence stay mutually consistent. -/
theorem popLast_core (arr : List Addr) (pos : Addr → Nat) (a : Addr)
    (hnd : arr.Nodup)
    (hpos : ∀ b ∈ arr, arr[pos b]? = some b)
    (ha : a ∈ arr)
    (hcase : pos a = arr.length - 1) :
    a ∉ arr.dropLast ∧
    (∀ b, b ≠ a → (b ∈ arr.dropLast ↔ b ∈ arr)) ∧
    (∀ b ∈ arr.dropLast, b ∈ arr) ∧
    arr.dropLast.Nodup ∧
    (∀ b ∈ arr.dropLast, arr.dropLast[setMap pos a 0 b]? = some b) := by
  obtain ⟨hidx, hget⟩ := List.getElem?_eq_some.1 (hpos a ha)
  have hlen : arr.dropLast.length = arr.length - 1 := List.length_dropLast arr
  have hsub : ∀ b ∈ arr.dropLast, b ∈ arr :=
    fun b hb => (List.dropLast_sublist arr).mem hb
  have hna : a ∉ arr.dropLast := by
    intro hmem
    rcases List.mem_iff_getElem.1 hmem with ⟨j, hj, hjv⟩
    rw [hlen] at hj
    rw [List.getElem_dropLast] at hjv
    have hja : arr[j] = arr[pos a] := by rw [hjv, hget]
    have : j = pos a := hnd.getElem_inj_iff.1 hja
    omega
  refine ⟨hna, ?_, hsub, (List.dropLast_sublist arr).nodup hnd, ?_⟩
  · intro b hb
    refine ⟨fun h => hsub b h, fun hbm => ?_⟩
    rcases List.mem_iff_getElem.1 hbm with ⟨j, hj, rfl⟩
    have hjne : j ≠ pos a := by
      intro h; subst h; exact hb hget
    have hjlt : j < arr.length - 1 := by omega
    refine List.mem_iff_getElem.2 ⟨j, by omega, ?_⟩
    rw [List.getElem_dropLast]
  · intro b hb
    have hbne : b ≠ a := fun h => hna (h ▸ hb)
    rw [setMap_ne _ _ _ hbne]
    have hpb := hpos b (hsub b hb)
    obtain ⟨hblt, hbget⟩ := List.getElem?_eq_some.1 hpb
    have hbpa : pos b ≠ pos a := by
      intro h
      rw [h, List.getElem?_eq_getElem hidx] at hpb
      exact hbne ((Option.some.inj hpb).symm.trans hget)
    have hblt' : pos b < arr.length - 1 := by omega
    rw [List.getElem?_eq_getElem (by omega : pos b < arr.dropLast.length)]
    rw [List.getElem_dropLast, hbget]

/-- Removing an element from the middle: the last element is swapped into
its slot, the moved element's recorded position is updated, the tail is
popped.  The position map and the sequence stay mutually consistent. -/
theorem swapPop_core (arr : List Addr) (pos : Addr → Nat) (a : Addr)
    (hnd : arr.Nodup)
    (hpos : ∀ b ∈ arr, arr[pos b]? = some b)
    (ha : a ∈ arr)
    (hcase : pos a ≠ arr.length - 1) :
    a ∉ (arr.set (pos a) (arr.getD (arr.length - 1) 0)).dropLast ∧
    (∀ b, b ≠ a →
      (b ∈ (arr.set (pos a) (arr.getD (arr.length - 1) 0)).dropLast ↔ b ∈ arr)) ∧
    (∀ b ∈ (arr.set (pos a) (arr.getD (arr.length - 1) 0)).dropLast, b ∈ arr) ∧
    ((arr.set (pos a) (arr.getD (arr.length - 1) 0)).dropLast).Nodup ∧
    (∀ b ∈ (arr.set (pos a) (arr.getD (arr.length - 1) 0)).dropLast,
      ((arr.set (pos a) (arr.getD (arr.length - 1) 0)).dropLast)[
        setMap (setMap pos (arr.getD (arr.length - 1) 0) (pos a)) a 0 b]? = some b) := by
  obtain ⟨hidx, hget⟩ := List.getElem?_eq_some.1 (hpos a ha)
  have hn1 : arr.length - 1 < arr.length := by omega
  have hD : arr.getD (arr.length - 1) 0 = arr[arr.length - 1] := by
    rw [List.getD_eq_getElem?_getD, List.getElem?_eq_getElem hn1]; rfl
  have hidxlt : pos a < arr.length - 1 := by omega
  have hlastne : arr[arr.length - 1] ≠ a := by
    intro h
    have h2 : arr[arr.length - 1] = arr[pos a] := by rw [h, hget]
    have : arr.length - 1 = pos a := hnd.getElem_inj_iff.1 h2
    omega
  rw [hD]
  have hlen : ((arr.set (pos a) arr[arr.length - 1]).dropLast).length
      = arr.length - 1 := by
    rw [List.length_dropLast, List.length_set]
  have hchar : ∀ j, j < arr.length - 1 →
      ((arr.set (pos a) arr[arr.length - 1]).dropLast)[j]? =
        if pos a = j then some arr[arr.length - 1] else arr[j]? := by
    intro j hj
    rw [List.getElem?_dropLast, List.length_set, if_pos hj, List.getElem?_set]
    by_cases hpj : pos a = j
    · subst hpj; simp [hidx]
    · simp [hpj]
  have hsub : ∀ b ∈ (arr.set (pos a) arr[arr.length - 1]).dropLast, b ∈ arr := by
    intro b hb
    rcases List.mem_iff_getElem?.1 hb with ⟨j, hj⟩
    have hjlt : j < arr.length - 1 := by
      obtain ⟨hw, _⟩ := List.getElem?_eq_some.1 hj
      omega
    rw [hchar j hjlt] at hj
    by_cases hpj : pos a = j
    · rw [if_pos hpj] at hj
      cases hj
      exact List.getElem_mem hn1
    · rw [if_neg hpj] at hj
      obtain ⟨hw, hv⟩ := List.getElem?_eq_some.1 hj
      rw [← hv]
      exact List.getElem_mem hw
  have hna : a ∉ (arr.set (pos a) arr[arr.length - 1]).dropLast := by
    intro hmem
    rcases List.mem_iff_getElem?.1 hmem with ⟨j, hj⟩
    have hjlt : j < arr.length - 1 := by
      obtain ⟨hw, _⟩ := List.getElem?_eq_some.1 hj
      omega
    rw [hchar j hjlt] at hj
    by_cases hpj : pos a = j
    · rw [if_pos hpj] at hj
      exact hlastne (Option.some.inj hj)
    · rw [if_neg hpj] at hj
      obtain ⟨hw, hv⟩ := List.getElem?_eq_some.1 hj
      have hja : arr[j] = arr[pos a] := by rw [hv, hget]
      exact hpj (hnd.getElem_inj_iff.1 hja).symm
  refine ⟨hna, ?_, hsub, ?_, ?_⟩
  · intro b hb
    refine ⟨fun h => hsub b h, fun hbm => ?_⟩
    rcases List.mem_iff_getElem.1 hbm with ⟨j, hj, rfl⟩
    by_cases hjl : j = arr.length - 1
    · subst hjl
      refine List.mem_iff_getElem?.2 ⟨pos a, ?_⟩
      rw [hchar (pos a) hidxlt, if_pos rfl]
    · have hjpa : j ≠ pos a := by
        intro h; subst h; exact hb hget
      have hjlt : j < arr.length - 1 := by omega
      refine List.mem_iff_getElem?.2 ⟨j, ?_⟩
      rw [hchar j hjlt, if_neg (fun h => hjpa h.symm),
        List.getElem?_eq_getElem hj]
  · rw [List.nodup_iff_getElem?_ne_getElem?]
    intro i j hij hjlen heq
    rw [hlen] at hjlen
    have hilt : i < arr.length - 1 := by omega
    rw [hchar i hilt, hchar j hjlen] at heq
    by_cases hpi : pos a = i
    · rw [if_pos hpi] at heq
      have hpj : ¬ pos a = j := by omega
      rw [if_neg hpj, List.getElem?_eq_getElem (by omega : j < arr.length)] at heq
      have : arr.length - 1 = j := hnd.getElem_inj_iff.1 (Option.some.inj heq)
      omega
    · rw [if_neg hpi] at heq
      by_cases hpj : pos a = j
      · rw [if_pos hpj, List.getElem?_eq_getElem (by omega : i < arr.length)] at heq
        have : i = arr.length - 1 := hnd.getElem_inj_iff.1 (Option.some.inj heq)
        omega
      · rw [if_neg hpj, List.getElem?_eq_getElem (by omega : i < arr.length),
          List.getElem?_eq_getElem (by omega : j < arr.length)] at heq
        have : i = j := hnd.getElem_inj_iff.1 (Option.some.inj heq)
        omega
  · intro b hb
    have hbne : b ≠ a := fun h => hna (h ▸ hb)
    rw [setMap_ne _ _ _ hbne]
    by_cases hbl : b = arr[arr.length - 1]
    · subst hbl
      rw [setMap_same]
      rw [hchar (pos a) hidxlt, if_pos rfl]
    · rw [setMap_ne _ _ _ hbl]
      have hpb := hpos b (hsub b hb)
      obtain ⟨hblt, hbget⟩ := List.getElem?_eq_some.1 hpb
      have hb1 : pos b ≠ arr.length - 1 := by
        intro h
        rw [h, List.getElem?_eq_getElem hn1] at hpb
        exact hbl (Option.some.inj hpb).symm
      have hb2 : pos b ≠ pos a := by
        intro h
        rw [h, List.getElem?_eq_getElem hidx] at hpb
        exact hbne ((Option.some.inj hpb).symm.trans hget)
      have hblt' : pos b < arr.length - 1 := by omega
      rw [hchar (pos b) hblt', if_neg (fun h => hb2 h.symm),
        List.getElem?_eq_getElem hblt, hbget]

/-! ### Lemmas about `_removeCapability` / `_removeAllCapabilities` -/

theorem removeCapability_pop_eq {agent : Addr} {c : String} {s : IdState}
    (h : s.s_agentIndexInCapability c agent = (s.s_capabilityToAgents c).length - 1) :
    _removeCapability agent c s =
      { s with
        s_capabilityToAgents := setMap s.s_capabilityToAgents c
          (s.s_capabilityToAgents c).dropLast
        s_agentIndexInCapability := setMap s.s_agentIndexInCapability c
          (setMap (s.s_agentIndexInCapability c) agent 0)
        s_agentHasCapability := setMap s.s_agentHasCapability agent
          (setMap (s.s_agentHasCapability agent) c false) } := by
  simp only [_removeCapability]
  rw [if_neg (by simp [h])]

theorem removeCapability_swap_eq {agent : Addr} {c : String} {s : IdState}
    (h : s.s_agentIndexInCapability c agent ≠ (s.s_capabilityToAgents c).length - 1) :
    _removeCapability agent c s =
      { s with
        s_capabilityToAgents := setMap s.s_capabilityToAgents c
          (((s.s_capabilityToAgents c).set (s.s_agentIndexInCapability c agent)
            ((s.s_capabilityToAgents c).getD
              ((s.s_capabilityToAgents c).length - 1) 0)).dropLast)
        s_agentIndexInCapability := setMap s.s_agentIndexInCapability c
          (setMap (setMap (s.s_agentIndexInCapability c)
            ((s.s_capabilityToAgents c).getD
              ((s.s_capabilityToAgents c).length - 1) 0)
            (s.s_agentIndexInCapability c agent)) agent 0)
        s_agentHasCapability := setMap s.s_agentHasCapability agent
          (setMap (s.s_agentHasCapability agent) c false) } := by
  simp only [_removeCapability]
  rw [if_pos h]
  simp only [setMap_setMap, setMap_same]

/-- Fields of the state that `_removeCapability` never touches. -/
theorem removeCapability_frame (agent : Addr) (c : String) (s : IdState) :
    (_removeCapability agent c s).s_agents = s.s_agents ∧
    (_removeCapability agent c s).s_registeredAgents = s.s_registeredAgents ∧
    (_removeCapability agent c s).s_agentIndexInRegistry
      = s.s_agentIndexInRegistry ∧
    (∀ t, t ≠ c → (_removeCapability agent c s).s_capabilityToAgents t
      = s.s_capabilityToAgents t) ∧
    (∀ t, t ≠ c → (_removeCapability agent c s).s_agentIndexInCapability t
      = s.s_agentIndexInCapability t) ∧
    (∀ b, b ≠ agent → (_removeCapability agent c s).s_agentHasCapability b
      = s.s_agentHasCapability b) ∧
    (∀ t, t ≠ c → (_removeCapability agent c s).s_agentHasCapability agent t
      = s.s_agentHasCapability agent t) ∧
    (_removeCapability agent c s).s_agentHasCapability agent c = false := by
  by_cases hcase : s.s_agentIndexInCapability c agent
      = (s.s_capabilityToAgents c).length - 1
  · simp only [removeCapability_pop_eq hcase]
    refine ⟨trivial, trivial, trivial, ?_, ?_, ?_, ?_, ?_⟩
    · intro t ht; exact setMap_ne _ _ _ ht
    · intro t ht; exact setMap_ne _ _ _ ht
    · intro b hb; exact setMap_ne _ _ _ hb
    · intro t ht; rw [setMap_same, setMap_ne _ _ _ ht]
    · rw [setMap_same, setMap_same]
  · simp only [removeCapability_swap_eq hcase]
    refine ⟨trivial, trivial, trivial, ?_, ?_, ?_, ?_, ?_⟩
    · intro t ht; exact setMap_ne _ _ _ ht
    · intro t ht; exact setMap_ne _ _ _ ht
    · intro b hb; exact setMap_ne _ _ _ hb
    · intro t ht; rw [setMap_same, setMap_ne _ _ _ ht]
    · rw [setMap_same, setMap_same]

/-- The swap-and-pop step keeps the tag's sequence and its position map
consistent, removes exactly the given agent from it, and preserves
`Nodup`. -/
theorem removeCapability_spec (agent : Addr) (c : String) (s : IdState)
    (hnd : (s.s_capabilityToAgents c).Nodup)
    (hpos : ∀ b ∈ s.s_capabilityToAgents c,
      (s.s_capabilityToAgents c)[s.s_agentIndexInCapability c b]? = some b)
    (ha : agent ∈ s.s_capabilityToAgents c) :
    agent ∉ (_removeCapability agent c s).s_capabilityToAgents c ∧
    (∀ b, b ≠ agent →
      (b ∈ (_removeCapability agent c s).s_capabilityToAgents c ↔
        b ∈ s.s_capabilityToAgents c)) ∧
    (∀ b, b ∈ (_removeCapability agent c s).s_capabilityToAgents c →
      b ∈ s.s_capabilityToAgents c) ∧
    ((_removeCapability agent c s).s_capabilityToAgents c).Nodup ∧
    (∀ b, b ∈ (_removeCapability agent c s).s_capabilityToAgents c →
      ((_removeCapability agent c s).s_capabilityToAgents c)[
        (_removeCapability agent c s).s_agentIndexInCapability c b]? = some b) := by
  by_cases hcase : s.s_agentIndexInCapability c agent
      = (s.s_capabilityToAgents c).length - 1
  · simp only [removeCapability_pop_eq hcase, setMap_same]
    obtain ⟨g1, g2, g3, g4, g5⟩ := popLast_core (s.s_capabilityToAgents c)
      (s.s_agentIndexInCapability c) agent hnd hpos ha hcase
    exact ⟨g1, g2, g3, g4, g5⟩
  · simp only [removeCapability_swap_eq hcase, setMap_same]
    obtain ⟨g1, g2, g3, g4, g5⟩ := swapPop_core (s.s_capabilityToAgents c)
      (s.s_agentIndexInCapability c) agent hnd hpos ha hcase
    exact ⟨g1, g2, g3, g4, g5⟩

/-- The removal loop of `_removeAllCapabilities`: folding the swap-and-pop
step over a duplicate-free snapshot of tags removes the agent from exactly
those tags' sequences, clears exactly those membership flags, touches nothing
else, and keeps every sequence consistent with its position map. -/
theorem removeLoop_spec (agent : Addr) :
    ∀ (todo : List String) (s : IdState), todo.Nodup →
    (∀ c ∈ todo, agent ∈ s.s_capabilityToAgents c) →
    (∀ t, (s.s_capabilityToAgents t).Nodup) →
    (∀ t b, b ∈ s.s_capabilityToAgents t →
      (s.s_capabilityToAgents t)[s.s_agentIndexInCapability t b]? = some b) →
    (todo.foldl (fun st c => _removeCapability agent c st) s).s_agents = s.s_agents ∧
    (todo.foldl (fun st c => _removeCapability agent c st) s).s_registeredAgents
      = s.s_registeredAgents ∧
    (todo.foldl (fun st c => _removeCapability agent c st) s).s_agentIndexInRegistry
      = s.s_agentIndexInRegistry ∧
    (∀ b t, b ≠ agent →
      (todo.foldl (fun st c => _removeCapability agent c st) s).s_agentHasCapability b t
        = s.s_agentHasCapability b t) ∧
    (∀ t, t ∉ todo →
      (todo.foldl (fun st c => _removeCapability agent c st) s).s_agentHasCapability agent t
        = s.s_agentHasCapability agent t) ∧
    (∀ t, t ∈ todo →
      (todo.foldl (fun st c => _removeCapability agent c st) s).s_agentHasCapability agent t
        = false) ∧
    (∀ t, t ∉ todo →
      (todo.foldl (fun st c => _removeCapability agent c st) s).s_capabilityToAgents t
        = s.s_capabilityToAgents t ∧
      (todo.foldl (fun st c => _removeCapability agent c st) s).s_agentIndexInCapability t
        = s.s_agentIndexInCapability t) ∧
    (∀ t, t ∈ todo →
      agent ∉ (todo.foldl (fun st c => _removeCapability agent c st) s).s_capabilityToAgents t) ∧
    (∀ t b, b ≠ agent →
      (b ∈ (todo.foldl (fun st c => _removeCapability agent c st) s).s_capabilityToAgents t ↔
        b ∈ s.s_capabilityToAgents t)) ∧
    (∀ t b, b ∈ (todo.foldl (fun st c => _removeCapability agent c st) s).s_capabilityToAgents t →
      b ∈ s.s_capabilityToAgents t) ∧
    (∀ t, ((todo.foldl (fun st c => _removeCapability agent c st) s).s_capabilityToAgents t).Nodup) ∧
    (∀ t b, b ∈ (todo.foldl (fun st c => _removeCapability agent c st) s).s_capabilityToAgents t →
      ((todo.foldl (fun st c => _removeCapability agent c st) s).s_capabilityToAgents t)[
        (todo.foldl (fun st c => _removeCapability agent c st) s).s_agentIndexInCapability t b]?
        = some b) := by
  intro todo
  induction todo with
  | nil =>
    intro s _ _ hnd hpos
    exact ⟨rfl, rfl, rfl, fun _ _ _ => rfl, fun _ _ => rfl, fun _ h => absurd h (by simp),
      fun _ _ => ⟨rfl, rfl⟩, fun _ h => absurd h (by simp),
      fun _ _ _ => Iff.rfl, fun _ _ h => h, hnd, hpos⟩
  | cons c rest ih =>
    intro s htodo hmem hnd hpos
    rw [List.foldl_cons]
    have hcrest : c ∉ rest := (List.nodup_cons.1 htodo).1
    have hrest : rest.Nodup := (List.nodup_cons.1 htodo).2
    obtain ⟨r1, r2, r3, r4, r5, r6, r7, r8⟩ := removeCapability_frame agent c s
    obtain ⟨q1, q2, q3, q4, q5⟩ := removeCapability_spec agent c s (hnd c)
      (hpos c) (hmem c (List.mem_cons_self c rest))
    have hmem' : ∀ c' ∈ rest, agent ∈ (_removeCapability agent c s).s_capabilityToAgents c' := by
      intro c' hc'
      have hne : c' ≠ c := fun h => hcrest (h ▸ hc')
      rw [r4 c' hne]
      exact hmem c' (List.mem_cons_of_mem c hc')
    have hnd' : ∀ t, ((_removeCapability agent c s).s_capabilityToAgents t).Nodup := by
      intro t
      by_cases ht : t = c
      · subst ht; exact q4
      · rw [r4 t ht]; exact hnd t
    have hpos' : ∀ t b, b ∈ (_removeCapability agent c s).s_capabilityToAgents t →
        ((_removeCapability agent c s).s_capabilityToAgents t)[
          (_removeCapability agent c s).s_agentIndexInCapability t b]? = some b := by
      intro t b hb
      by_cases ht : t = c
      · subst ht; exact q5 b hb
      · rw [r4 t ht] at hb ⊢
        rw [r5 t ht]
        exact hpos t b hb
    obtain ⟨g1, g2, g3, g4, g5, g6, g7, g8, g9, g10, g11, g12⟩ :=
      ih (_removeCapability agent c s) hrest hmem' hnd' hpos'
    refine ⟨g1.trans r1, g2.trans r2, g3.trans r3, ?_, ?_, ?_, ?_, ?_, ?_, ?_, g11, g12⟩
    · intro b t hb
      rw [g4 b t hb]
      rw [show (_removeCapability agent c s).s_agentHasCapability b
        = s.s_agentHasCapability b from r6 b hb]
    · intro t ht
      have htr : t ∉ rest := fun h => ht (List.mem_cons_of_mem c h)
      have htc : t ≠ c := fun h => ht (h ▸ List.mem_cons_self c rest)
      rw [g5 t htr, r7 t htc]
    · intro t ht
      rcases List.mem_cons.1 ht with rfl | ht'
      · rw [g5 t (by exact fun h => hcrest h), r8]
      · exact g6 t ht'
    · intro t ht
      have htr : t ∉ rest := fun h => ht (List.mem_cons_of_mem c h)
      have htc : t ≠ c := fun h => ht (h ▸ List.mem_cons_self c rest)
      obtain ⟨e1, e2⟩ := g7 t htr
      exact ⟨e1.trans (r4 t htc), e2.trans (r5 t htc)⟩
    · intro t ht
      rcases List.mem_cons.1 ht with rfl | ht'
      · intro hmem2
        exact q1 (g10 t agent hmem2)
      · exact g8 t ht'
    · intro t b hb
      rw [g9 t b hb]
      by_cases ht : t = c
      · subst ht; exact q2 b hb
      · rw [r4 t ht]
    · intro t b hb
      have hb' := g10 t b hb
      by_cases ht : t = c
      · subst ht; exact q3 b hb'
      · rw [r4 t ht] at hb'; exact hb'

theorem removeAllCapabilities_eq (agent : Addr) (s : IdState) :
    _removeAllCapabilities agent s =
      { ((s.s_agents agent).capabilityTags).foldl
          (fun st c => _removeCapability agent c st) s with
        s_agents := setMap
          (((s.s_agents agent).capabilityTags).foldl
            (fun st c => _removeCapability agent c st) s).s_agents agent
          { (((s.s_agents agent).capabilityTags).foldl
              (fun st c => _removeCapability agent c st) s).s_agents agent with
            capabilityTags := [] } } := rfl

/-- `_removeAllCapabilities` on a state satisfying the invariant: the
invariant is preserved, the agent ends with no tags, no membership flags and
no capability-index entries, the card reference and registration flag are
untouched, and nothing belonging to other agents changes. -/
theorem removeAllCapabilities_spec (agent : Addr) (s : IdState) (h : IdInv s) :
    IdInv (_removeAllCapabilities agent s) ∧
    ((_removeAllCapabilities agent s).s_agents agent).capabilityTags = [] ∧
    ((_removeAllCapabilities agent s).s_agents agent).agentCardCID
      = (s.s_agents agent).agentCardCID ∧
    ((_removeAllCapabilities agent s).s_agents agent).isRegistered
      = (s.s_agents agent).isRegistered ∧
    (∀ b, b ≠ agent → (_removeAllCapabilities agent s).s_agents b = s.s_agents b) ∧
    (∀ b t, b ≠ agent →
      (_removeAllCapabilities agent s).s_agentHasCapability b t
        = s.s_agentHasCapability b t) ∧
    (∀ t, (_removeAllCapabilities agent s).s_agentHasCapability agent t = false) ∧
    (∀ t, agent ∉ (_removeAllCapabilities agent s).s_capabilityToAgents t) ∧
    (∀ t b, b ≠ agent →
      (b ∈ (_removeAllCapabilities agent s).s_capabilityToAgents t ↔
        b ∈ s.s_capabilityToAgents t)) ∧
    (_removeAllCapabilities agent s).s_registeredAgents = s.s_registeredAgents ∧
    (_removeAllCapabilities agent s).s_agentIndexInRegistry
      = s.s_agentIndexInRegistry := by
  have hmem0 : ∀ c ∈ (s.s_agents agent).capabilityTags,
      agent ∈ s.s_capabilityToAgents c := by
    intro c hc
    exact (h.idxIff agent c).1 ((h.memIff agent c).2 hc)
  obtain ⟨g1, g2, g3, g4, g5, g6, g7, g8, g9, g10, g11, g12⟩ :=
    removeLoop_spec agent ((s.s_agents agent).capabilityTags) s
      (h.tagsNodup agent) hmem0 h.arrNodup h.posOk
  have hAgentGone : ∀ t,
      agent ∉ (((s.s_agents agent).capabilityTags).foldl
        (fun st c => _removeCapability agent c st) s).s_capabilityToAgents t := by
    intro t
    by_cases ht : t ∈ (s.s_agents agent).capabilityTags
    · exact g8 t ht
    · rw [(g7 t ht).1]
      intro hmem
      exact ht ((h.memIff agent t).1 ((h.idxIff agent t).2 hmem))
  have hHasGone : ∀ t,
      (((s.s_agents agent).capabilityTags).foldl
        (fun st c => _removeCapability agent c st) s).s_agentHasCapability agent t
        = false := by
    intro t
    by_cases ht : t ∈ (s.s_agents agent).capabilityTags
    · exact g6 t ht
    · rw [g5 t ht]
      by_cases hc : s.s_agentHasCapability agent t = true
      · exact absurd ((h.memIff agent t).1 hc) ht
      · simpa using hc
  refine ⟨?_, ?_, ?_, ?_, ?_, ?_, ?_, ?_, ?_, ?_, ?_⟩
  · constructor
    · intro a t
      simp only [removeAllCapabilities_eq]
      by_cases ha : a = agent
      · subst ha
        rw [setMap_same]
        simp only [hHasGone t]
        simp
      · rw [setMap_ne _ _ _ ha, g1, g4 a t ha]
        exact h.memIff a t
    · intro a t
      simp only [removeAllCapabilities_eq]
      by_cases ha : a = agent
      · subst ha
        rw [hHasGone t]
        simp only [Bool.false_eq_true, false_iff]
        exact hAgentGone t
      · rw [g4 a t ha]
        rw [h.idxIff a t]
        exact (g9 t a ha).symm
    · intro a
      simp only [removeAllCapabilities_eq]
      by_cases ha : a = agent
      · subst ha; rw [setMap_same]; exact List.nodup_nil
      · rw [setMap_ne _ _ _ ha, g1]; exact h.tagsNodup a
    · intro a t hm
      simp only [removeAllCapabilities_eq] at hm
      by_cases ha : a = agent
      · subst ha; rw [setMap_same] at hm; simp at hm
      · rw [setMap_ne _ _ _ ha, g1] at hm; exact h.tagsNonempty a t hm
    · intro t
      simp only [removeAllCapabilities_eq]
      exact g11 t
    · intro t a hm
      simp only [removeAllCapabilities_eq] at hm ⊢
      exact g12 t a hm
    · intro a hreg
      simp only [removeAllCapabilities_eq] at hreg ⊢
      by_cases ha : a = agent
      · subst ha; rw [setMap_same]
      · rw [setMap_ne _ _ _ ha, g1] at hreg ⊢
        exact h.unregEmpty a hreg
  · simp only [removeAllCapabilities_eq]
    rw [setMap_same]
  · simp only [removeAllCapabilities_eq]
    rw [setMap_same, g1]
  · simp only [removeAllCapabilities_eq]
    rw [setMap_same, g1]
  · intro b hb
    simp only [removeAllCapabilities_eq]
    rw [setMap_ne _ _ _ hb, g1]
  · intro b t hb
    simp only [removeAllCapabilities_eq]
    exact g4 b t hb
  · intro t
    simp only [removeAllCapabilities_eq]
    exact hHasGone t
  · intro t
    simp only [removeAllCapabilities_eq]
    exact hAgentGone t
  · intro t b hb
    simp only [removeAllCapabilities_eq]
    exact g9 t b hb
  · simp only [removeAllCapabilities_eq]
    exact g2
  · simp only [removeAllCapabilities_eq]
    exact g3

/-! ### Operation-level lemmas -/

theorem registerAgent_err_cid {cid : String} (tags : List String) (caller : Addr)
    (s : IdState) (h0 : cid.length = 0) :
    registerAgent cid tags caller s = .error .invalidCID := by
  unfold registerAgent registerAgentRaw
  rw [if_pos h0]

theorem registerAgent_err_already {cid : String} (tags : List String) {caller : Addr}
    {s : IdState} (h0 : cid.length ≠ 0)
    (h1 : (s.s_agents caller).isRegistered = true) :
    registerAgent cid tags caller s = .error (.agentAlreadyRegistered caller) := by
  unfold registerAgent registerAgentRaw
  rw [if_neg h0, if_pos h1]

theorem registerAgent_ok_eq {cid : String} (tags : List String) {caller : Addr}
    {s : IdState} (h0 : cid.length ≠ 0)
    (h1 : ¬ (s.s_agents caller).isRegistered = true) :
    registerAgent cid tags caller s = .ok (_addCapabilities caller tags
      { s with
        s_agents := setMap s.s_agents caller
          { s.s_agents caller with agentCardCID := cid, isRegistered := true }
        s_agentIndexInRegistry := setMap s.s_agentIndexInRegistry caller
          s.s_registeredAgents.length
        s_registeredAgents := s.s_registeredAgents ++ [caller] }) := by
  unfold registerAgent registerAgentRaw
  rw [if_neg h0, if_neg h1]

theorem updateAgentCard_err_notreg {newCID : String} (newTags : List String)
    {caller : Addr} {s : IdState}
    (h1 : ¬ (s.s_agents caller).isRegistered = true) :
    updateAgentCard newCID newTags caller s = .error (.agentNotRegistered caller) := by
  unfold updateAgentCard updateAgentCardRaw
  rw [if_pos h1]

theorem updateAgentCard_err_cid {newCID : String} (newTags : List String)
    {caller : Addr} {s : IdState}
    (h1 : (s.s_agents caller).isRegistered = true) (h0 : newCID.length = 0) :
    updateAgentCard newCID newTags caller s = .error .invalidCID := by
  unfold updateAgentCard updateAgentCardRaw
  rw [if_neg (not_not_intro h1), if_pos h0]

theorem updateAgentCard_ok_eq {newCID : String} (newTags : List String)
    {caller : Addr} {s : IdState}
    (h1 : (s.s_agents caller).isRegistered = true) (h0 : newCID.length ≠ 0) :
    updateAgentCard newCID newTags caller s = .ok (_addCapabilities caller newTags
      { _removeAllCapabilities caller s with
        s_agents := setMap (_removeAllCapabilities caller s).s_agents caller
          { (_removeAllCapabilities caller s).s_agents caller with
            agentCardCID := newCID } }) := by
  unfold updateAgentCard updateAgentCardRaw
  rw [if_neg (not_not_intro h1), if_neg h0]

/-- Overwriting only the card reference of one agent preserves the
invariant. -/
theorem setCID_inv (a : Addr) (cid : String) (s : IdState) (h : IdInv s) :
    IdInv { s with
      s_agents := setMap s.s_agents a
        { s.s_agents a with agentCardCID := cid } } := by
  have htags : ∀ b, ((setMap s.s_agents a
      { s.s_agents a with agentCardCID := cid }) b).capabilityTags
        = (s.s_agents b).capabilityTags := by
    intro b
    by_cases hb : b = a
    · subst hb; rw [setMap_same]
    · rw [setMap_ne _ _ _ hb]
  have hreg : ∀ b, ((setMap s.s_agents a
      { s.s_agents a with agentCardCID := cid }) b).isRegistered
        = (s.s_agents b).isRegistered := by
    intro b
    by_cases hb : b = a
    · subst hb; rw [setMap_same]
    · rw [setMap_ne _ _ _ hb]
  constructor
  · intro b t; simp only [htags]; exact h.memIff b t
  · intro b t; exact h.idxIff b t
  · intro b; simp only [htags]; exact h.tagsNodup b
  · intro b t hm; simp only [htags] at hm; exact h.tagsNonempty b t hm
  · intro t; exact h.arrNodup t
  · intro t b hm; exact h.posOk t b hm
  · intro b hreg'
    simp only [hreg] at hreg'
    simp only [htags]
    exact h.unregEmpty b hreg'

/-- Writing card reference and registration flag (tags untouched) plus
appending to the registry list preserves the invariant. -/
theorem registerWrite_inv (caller : Addr) (cid : String) (s : IdState)
    (h : IdInv s) :
    IdInv { s with
      s_agents := setMap s.s_agents caller
        { s.s_agents caller with agentCardCID := cid, isRegistered := true }
      s_agentIndexInRegistry := setMap s.s_agentIndexInRegistry caller
        s.s_registeredAgents.length
      s_registeredAgents := s.s_registeredAgents ++ [caller] } := by
  have htags : ∀ b, ((setMap s.s_agents caller
      { s.s_agents caller with agentCardCID := cid, isRegistered := true }) b).capabilityTags
        = (s.s_agents b).capabilityTags := by
    intro b
    by_cases hb : b = caller
    · subst hb; rw [setMap_same]
    · rw [setMap_ne _ _ _ hb]
  constructor
  · intro b t; simp only [htags]; exact h.memIff b t
  · intro b t; exact h.idxIff b t
  · intro b; simp only [htags]; exact h.tagsNodup b
  · intro b t hm; simp only [htags] at hm; exact h.tagsNonempty b t hm
  · intro t; exact h.arrNodup t
  · intro t b hm; exact h.posOk t b hm
  · intro b hreg'
    by_cases hb : b = caller
    · subst hb
      simp only [setMap_same] at hreg'
      exact absurd hreg' (by simp)
    · simp only [setMap_ne _ _ _ hb] at hreg' ⊢
      exact h.unregEmpty b hreg'

/-- Successful registration: the record is created with the given card
reference, the caller is appended to the registered-agents list, the tags
are indexed with the dedup/skip-empty rule, and the invariant is
preserved. -/
theorem registerAgent_success_spec (cid : String) (tags : List String)
    (caller : Addr) (s : IdState) (h0 : cid.length ≠ 0)
    (h1 : (s.s_agents caller).isRegistered = false) (hinv : IdInv s) :
    ∃ s', registerAgent cid tags caller s = .ok s' ∧
      IdInv s' ∧
      (s'.s_agents caller).agentCardCID = cid ∧
      (s'.s_agents caller).isRegistered = true ∧
      (s'.s_agents caller).capabilityTags = addTagsSpec [] tags ∧
      s'.s_registeredAgents = s.s_registeredAgents ++ [caller] := by
  have h1' : ¬ (s.s_agents caller).isRegistered = true := by simp [h1]
  refine ⟨_, registerAgent_ok_eq tags h0 h1', ?_, ?_, ?_, ?_, ?_⟩
  · have hr : (({ s with
      s_agents := setMap s.s_agents caller
        { s.s_agents caller with agentCardCID := cid, isRegistered := true }
      s_agentIndexInRegistry := setMap s.s_agentIndexInRegistry caller
        s.s_registeredAgents.length
      s_registeredAgents := s.s_registeredAgents ++ [caller] } : IdState).s_agents
        caller).isRegistered = true := by
      simp only [setMap_same]
    exact addCapabilities_inv caller tags _ hr (registerWrite_inv caller cid s hinv)
  · obtain ⟨_, _, _, _, f5, _, _⟩ := addCapabilities_frame caller tags
      { s with
        s_agents := setMap s.s_agents caller
          { s.s_agents caller with agentCardCID := cid, isRegistered := true }
        s_agentIndexInRegistry := setMap s.s_agentIndexInRegistry caller
          s.s_registeredAgents.length
        s_registeredAgents := s.s_registeredAgents ++ [caller] }
    rw [f5]
    simp only [setMap_same]
  · obtain ⟨_, _, _, _, _, f6, _⟩ := addCapabilities_frame caller tags
      { s with
        s_agents := setMap s.s_agents caller
          { s.s_agents caller with agentCardCID := cid, isRegistered := true }
        s_agentIndexInRegistry := setMap s.s_agentIndexInRegistry caller
          s.s_registeredAgents.length
        s_registeredAgents := s.s_registeredAgents ++ [caller] }
    rw [f6]
    simp only [setMap_same]
  · have hr : (({ s with
      s_agents := setMap s.s_agents caller
        { s.s_agents caller with agentCardCID := cid, isRegistered := true }
      s_agentIndexInRegistry := setMap s.s_agentIndexInRegistry caller
        s.s_registeredAgents.length
      s_registeredAgents := s.s_registeredAgents ++ [caller] } : IdState).s_agents
        caller).isRegistered = true := by
      simp only [setMap_same]
    rw [addCapabilities_tags caller tags _ hr (registerWrite_inv caller cid s hinv)]
    have : (({ s with
      s_agents := setMap s.s_agents caller
        { s.s_agents caller with agentCardCID := cid, isRegistered := true }
      s_agentIndexInRegistry := setMap s.s_agentIndexInRegistry caller
        s.s_registeredAgents.length
      s_registeredAgents := s.s_registeredAgents ++ [caller] } : IdState).s_agents
        caller).capabilityTags = [] := by
      simp only [setMap_same]
      exact hinv.unregEmpty caller h1
    rw [this]
  · obtain ⟨f1, _, _, _, _, _, _⟩ := addCapabilities_frame caller tags
      { s with
        s_agents := setMap s.s_agents caller
          { s.s_agents caller with agentCardCID := cid, isRegistered := true }
        s_agentIndexInRegistry := setMap s.s_agentIndexInRegistry caller
          s.s_registeredAgents.length
        s_registeredAgents := s.s_registeredAgents ++ [caller] }
    rw [f1]

/-- Successful card update: the card reference is replaced, the tag list is
rebuilt from the new tags alone, registration stands, other agents are
untouched, and the invariant is preserved. -/
theorem updateAgentCard_success_spec (newCID : String) (newTags : List String)
    (caller : Addr) (s : IdState)
    (h1 : (s.s_agents caller).isRegistered = true) (h0 : newCID.length ≠ 0)
    (hinv : IdInv s) :
    ∃ s', updateAgentCard newCID newTags caller s = .ok s' ∧
      IdInv s' ∧
      (s'.s_agents caller).agentCardCID = newCID ∧
      (s'.s_agents caller).isRegistered = true ∧
      (s'.s_agents caller).capabilityTags = addTagsSpec [] newTags := by
  obtain ⟨rinv, rtags, rcid, rreg, _, _, _, _, _, _, _⟩ :=
    removeAllCapabilities_spec caller s hinv
  have h2inv : IdInv { _removeAllCapabilities caller s with
      s_agents := setMap (_removeAllCapabilities caller s).s_agents caller
        { (_removeAllCapabilities caller s).s_agents caller with
          agentCardCID := newCID } } :=
    setCID_inv caller newCID _ rinv
  have h2reg : (({ _removeAllCapabilities caller s with
      s_agents := setMap (_removeAllCapabilities caller s).s_agents caller
        { (_removeAllCapabilities caller s).s_agents caller with
          agentCardCID := newCID } } : IdState).s_agents caller).isRegistered
        = true := by
    simp only [setMap_same]
    rw [rreg]; exact h1
  have h2tags : (({ _removeAllCapabilities caller s with
      s_agents := setMap (_removeAllCapabilities caller s).s_agents caller
        { (_removeAllCapabilities caller s).s_agents caller with
          agentCardCID := newCID } } : IdState).s_agents caller).capabilityTags
        = [] := by
    simp only [setMap_same]
    exact rtags
  refine ⟨_, updateAgentCard_ok_eq newTags h1 h0, ?_, ?_, ?_, ?_⟩
  · exact addCapabilities_inv caller newTags _ h2reg h2inv
  · obtain ⟨_, _, _, _, f5, _, _⟩ := addCapabilities_frame caller newTags
      { _removeAllCapabilities caller s with
        s_agents := setMap (_removeAllCapabilities caller s).s_agents caller
          { (_removeAllCapabilities caller s).s_agents caller with
            agentCardCID := newCID } }
    rw [f5]
    simp only [setMap_same]
  · obtain ⟨_, _, _, _, _, f6, _⟩ := addCapabilities_frame caller newTags
      { _removeAllCapabilities caller s with
        s_agents := setMap (_removeAllCapabilities caller s).s_agents caller
          { (_removeAllCapabilities caller s).s_agents caller with
            agentCardCID := newCID } }
    rw [f6]
    exact h2reg
  · rw [addCapabilities_tags caller newTags _ h2reg h2inv, h2tags]

/-- A committed `registerAgent` call preserves the invariant. -/
theorem regStep_inv (cid : String) (tags : List String) (caller : Addr)
    (s : IdState) (hinv : IdInv s) : IdInv (regStep cid tags caller s) := by
  unfold regStep
  by_cases h0 : cid.length = 0
  · rw [registerAgent_err_cid tags caller s h0]; exact hinv
  by_cases h1 : (s.s_agents caller).isRegistered = true
  · rw [registerAgent_err_already tags h0 h1]; exact hinv
  · obtain ⟨s', heq, hinv', _, _, _, _⟩ :=
      registerAgent_success_spec cid tags caller s h0 (by simpa using h1) hinv
    rw [heq]
    exact hinv'

/-- A committed `updateAgentCard` call preserves the invariant. -/
theorem updStep_inv (cid : String) (tags : List String) (caller : Addr)
    (s : IdState) (hinv : IdInv s) : IdInv (updStep cid tags caller s) := by
  unfold updStep
  by_cases h1 : (s.s_agents caller).isRegistered = true
  · by_cases h0 : cid.length = 0
    · rw [updateAgentCard_err_cid tags h1 h0]; exact hinv
    · obtain ⟨s', heq, hinv', _, _, _⟩ :=
        updateAgentCard_success_spec cid tags caller s h1 h0 hinv
      rw [heq]
      exact hinv'
  · rw [updateAgentCard_err_notreg tags h1]; exact hinv

/-- Every reachable identity-registry state satisfies the invariant. -/
theorem idReach_inv {s : IdState} (h : IdReach s) : IdInv s := by
  induction h with
  | init => exact idInv_init
  | register cid tags caller _ ih => exact regStep_inv cid tags caller _ ih
  | update cid tags caller _ ih => exact updStep_inv cid tags caller _ ih

/-! ### Lemmas about `discoverAgents` -/

theorem collectUnique_append (acc : List Addr) (l1 l2 : List Addr) :
    collectUnique acc (l1 ++ l2) = collectUnique (collectUnique acc l1) l2 := by
  unfold collectUnique
  exact List.foldl_append _ _ _ _

/-- The nested scan of `discoverAgents` is the first-seen dedup of the
concatenation of the per-tag sequences. -/
theorem discoverFold_eq_dedup (arrMap : String → List Addr) :
    ∀ (tags : List String) (acc : List Addr),
      tags.foldl (fun acc' t => collectUnique acc' (arrMap t)) acc
        = (tags.flatMap arrMap).foldl
            (fun acc' a => if a ∈ acc' then acc' else acc' ++ [a]) acc := by
  intro tags
  induction tags with
  | nil => intro acc; rfl
  | cons t rest ih =>
    intro acc
    rw [List.foldl_cons, List.flatMap_cons, List.foldl_append, ih]
    rfl

theorem foldl_dedup_mem (l : List Addr) :
    ∀ (acc : List Addr) (b : Addr),
      b ∈ l.foldl (fun acc' a => if a ∈ acc' then acc' else acc' ++ [a]) acc ↔
        b ∈ acc ∨ b ∈ l := by
  induction l with
  | nil => intro acc b; simp
  | cons a rest ih =>
    intro acc b
    rw [List.foldl_cons, ih]
    by_cases hmem : a ∈ acc
    · rw [if_pos hmem]
      constructor
      · rintro (h | h)
        · exact Or.inl h
        · exact Or.inr (List.mem_cons_of_mem a h)
      · rintro (h | h)
        · exact Or.inl h
        · rcases List.mem_cons.1 h with rfl | h'
          · exact Or.inl hmem
          · exact Or.inr h'
    · rw [if_neg hmem]
      simp only [List.mem_append, List.mem_singleton, List.mem_cons]
      tauto

theorem foldl_dedup_nodup (l : List Addr) :
    ∀ acc : List Addr, acc.Nodup →
      (l.foldl (fun acc' a => if a ∈ acc' then acc' else acc' ++ [a]) acc).Nodup := by
  induction l with
  | nil => intro acc h; exact h
  | cons a rest ih =>
    intro acc h
    rw [List.foldl_cons]
    by_cases hmem : a ∈ acc
    · rw [if_pos hmem]; exact ih acc h
    · rw [if_neg hmem]
      refine ih (acc ++ [a]) (h.append (List.nodup_singleton a) ?_)
      intro x hx hxa
      rcases List.mem_singleton.1 hxa with rfl
      exact hmem hx

theorem firstSeenDedup_mem (l : List Addr) (b : Addr) :
    b ∈ firstSeenDedup l ↔ b ∈ l := by
  unfold firstSeenDedup
  rw [foldl_dedup_mem]
  simp

theorem firstSeenDedup_nodup (l : List Addr) : (firstSeenDedup l).Nodup :=
  foldl_dedup_nodup l [] List.nodup_nil

/-- `discoverAgents` on a non-empty query: the committed result in closed
form. -/
theorem discoverAgents_ok (capabilityTags : List String) (s : IdState)
    (h : capabilityTags ≠ []) :
    discoverAgents capabilityTags s = .ok
      (firstSeenDedup (capabilityTags.flatMap s.s_capabilityToAgents),
       (firstSeenDedup (capabilityTags.flatMap s.s_capabilityToAgents)).map
         (fun a => (s.s_agents a).agentCardCID)) := by
  unfold discoverAgents
  rw [if_neg (by simpa using h)]
  by_cases hmax : (capabilityTags.map
      (fun t => (s.s_capabilityToAgents t).length)).sum = 0
  · rw [if_pos hmax]
    have hflat : capabilityTags.flatMap s.s_capabilityToAgents = [] := by
      rw [← List.length_eq_zero, List.length_flatMap]
      simpa [Function.comp] using hmax
    rw [hflat]
    rfl
  · rw [if_neg hmax]
    rw [discoverFold_eq_dedup s.s_capabilityToAgents capabilityTags []]
    rfl

theorem discoverAgents_err (capabilityTags : List String) (s : IdState)
    (h : capabilityTags = []) :
    discoverAgents capabilityTags s = .error .emptyCapabilityTags := by
  subst h
  rfl

/-! ### Lemmas about the reputation ledger -/

/-- The bookkeeping invariant of `AgentReputationRegistry`: the aggregates
agree with the stored rating lists, and the first-rating flag agrees with
list non-emptiness. -/
structure RepInv (s : RepState) : Prop where
  scoreEq : ∀ a, (s.s_agentReputations a).totalScore
    = 100 * (((s.s_agentRatings a).map Rating.rating).sum)
  countEq : ∀ a, (s.s_agentReputations a).totalRatings = (s.s_agentRatings a).length
  countEq2 : ∀ a, (s.s_agentReputations a).ratingsCount = (s.s_agentRatings a).length
  ratedIff : ∀ a, s.s_hasBeenRated a = true ↔ (s.s_agentRatings a).length ≠ 0

theorem repInv_init : RepInv initRepState := by
  constructor <;> simp [initRepState]

theorem postReputation_err_target {targetAgent : Addr} (rating : Nat)
    (comment proofCID : String) (rater : Addr) (now : Nat) (s : RepState)
    (h : targetAgent = 0) :
    postReputation targetAgent rating comment proofCID rater now s
      = .error .invalidTargetAgent := by
  unfold postReputation postReputationRaw
  rw [if_pos h]

theorem postReputation_err_self {targetAgent : Addr} (rating : Nat)
    (comment proofCID : String) {rater : Addr} (now : Nat) (s : RepState)
    (h0 : targetAgent ≠ 0) (h : targetAgent = rater) :
    postReputation targetAgent rating comment proofCID rater now s
      = .error .cannotRateSelf := by
  unfold postReputation postReputationRaw
  rw [if_neg h0, if_pos h]

theorem postReputation_err_rating {targetAgent : Addr} {rating : Nat}
    (comment proofCID : String) {rater : Addr} (now : Nat) (s : RepState)
    (h0 : targetAgent ≠ 0) (h1 : targetAgent ≠ rater)
    (h : rating < MIN_RATING ∨ rating > MAX_RATING) :
    postReputation targetAgent rating comment proofCID rater now s
      = .error (.invalidRating rating) := by
  unfold postReputation postReputationRaw
  rw [if_neg h0, if_neg h1, if_pos h]

theorem postReputation_err_ratelimit {targetAgent : Addr} {rating : Nat}
    (comment proofCID : String) {rater : Addr} {now : Nat} {s : RepState}
    (h0 : targetAgent ≠ 0) (h1 : targetAgent ≠ rater)
    (h2 : ¬ (rating < MIN_RATING ∨ rating > MAX_RATING))
    (h : s.s_lastRatingTime rater targetAgent ≠ 0 ∧
      now < s.s_lastRatingTime rater targetAgent + RATE_LIMIT_PERIOD) :
    postReputation targetAgent rating comment proofCID rater now s
      = .error (.rateLimitExceeded rater targetAgent
        (s.s_lastRatingTime rater targetAgent + RATE_LIMIT_PERIOD)) := by
  unfold postReputation postReputationRaw
  rw [if_neg h0, if_neg h1, if_neg h2, if_pos h]

theorem postReputation_ok_first {targetAgent : Addr} {rating : Nat}
    (comment proofCID : String) {rater : Addr} {now : Nat} {s : RepState}
    (h0 : targetAgent ≠ 0) (h1 : targetAgent ≠ rater)
    (h2 : ¬ (rating < MIN_RATING ∨ rating > MAX_RATING))
    (h3 : ¬ (s.s_lastRatingTime rater targetAgent ≠ 0 ∧
      now < s.s_lastRatingTime rater targetAgent + RATE_LIMIT_PERIOD))
    (h4 : s.s_hasBeenRated targetAgent = false) :
    postReputation targetAgent rating comment proofCID rater now s = .ok
      { s with
        s_lastRatingTime := setMap s.s_lastRatingTime rater
          (setMap (s.s_lastRatingTime rater) targetAgent now)
        s_agentRatings := setMap s.s_agentRatings targetAgent
          (s.s_agentRatings targetAgent ++ [⟨rating, comment, proofCID, now, rater⟩])
        s_agentReputations := setMap s.s_agentReputations targetAgent
          { totalScore := (s.s_agentReputations targetAgent).totalScore
              + rating * SCORE_MULTIPLIER
            totalRatings := (s.s_agentReputations targetAgent).totalRatings + 1
            ratingsCount := (s.s_agentReputations targetAgent).ratingsCount + 1 }
        s_hasBeenRated := setMap s.s_hasBeenRated targetAgent true
        s_ratedAgents := s.s_ratedAgents ++ [targetAgent] } := by
  unfold postReputation postReputationRaw
  rw [if_neg h0, if_neg h1, if_neg h2, if_neg h3]
  simp [h4]

theorem postReputation_ok_again {targetAgent : Addr} {rating : Nat}
    (comment proofCID : String) {rater : Addr} {now : Nat} {s : RepState}
    (h0 : targetAgent ≠ 0) (h1 : targetAgent ≠ rater)
    (h2 : ¬ (rating < MIN_RATING ∨ rating > MAX_RATING))
    (h3 : ¬ (s.s_lastRatingTime rater targetAgent ≠ 0 ∧
      now < s.s_lastRatingTime rater targetAgent + RATE_LIMIT_PERIOD))
    (h4 : s.s_hasBeenRated targetAgent = true) :
    postReputation targetAgent rating comment proofCID rater now s = .ok
      { s with
        s_lastRatingTime := setMap s.s_lastRatingTime rater
          (setMap (s.s_lastRatingTime rater) targetAgent now)
        s_agentRatings := setMap s.s_agentRatings targetAgent
          (s.s_agentRatings targetAgent ++ [⟨rating, comment, proofCID, now, rater⟩])
        s_agentReputations := setMap s.s_agentReputations targetAgent
          { totalScore := (s.s_agentReputations targetAgent).totalScore
              + rating * SCORE_MULTIPLIER
            totalRatings := (s.s_agentReputations targetAgent).totalRatings + 1
            ratingsCount := (s.s_agentReputations targetAgent).ratingsCount + 1 } } := by
  unfold postReputation postReputationRaw
  rw [if_neg h0, if_neg h1, if_neg h2, if_neg h3]
  simp [h4]

/-- A committed `postReputation` call preserves the reputation invariant. -/
theorem postStep_inv (targetAgent : Addr) (rating : Nat) (comment proofCID : String)
    (rater : Addr) (now : Nat) (s : RepState) (h : RepInv s) :
    RepInv (postStep targetAgent rating comment proofCID rater now s) := by
  unfold postStep
  by_cases h0 : targetAgent = 0
  · rw [postReputation_err_target rating comment proofCID rater now s h0]; exact h
  by_cases h1 : targetAgent = rater
  · rw [postReputation_err_self rating comment proofCID now s h0 h1]; exact h
  by_cases h2 : rating < MIN_RATING ∨ rating > MAX_RATING
  · rw [postReputation_err_rating comment proofCID now s h0 h1 h2]; exact h
  by_cases h3 : s.s_lastRatingTime rater targetAgent ≠ 0 ∧
      now < s.s_lastRatingTime rater targetAgent + RATE_LIMIT_PERIOD
  · rw [postReputation_err_ratelimit comment proofCID h0 h1 h2 h3]; exact h
  by_cases h4 : s.s_hasBeenRated targetAgent = true
  · rw [postReputation_ok_again comment proofCID h0 h1 h2 h3 h4]
    constructor
    · intro a
      by_cases ha : a = targetAgent
      · subst ha
        simp only [setMap_same, h.scoreEq a, SCORE_MULTIPLIER, List.map_append,
          List.sum_append]
        simp [Nat.mul_add, Nat.mul_comm]
      · simp only [setMap_ne _ _ _ ha]; exact h.scoreEq a
    · intro a
      by_cases ha : a = targetAgent
      · subst ha
        simp only [setMap_same, List.length_append, List.length_cons,
          List.length_nil, h.countEq a]
      · simp only [setMap_ne _ _ _ ha]; exact h.countEq a
    · intro a
      by_cases ha : a = targetAgent
      · subst ha
        simp only [setMap_same, List.length_append, List.length_cons,
          List.length_nil, h.countEq2 a]
      · simp only [setMap_ne _ _ _ ha]; exact h.countEq2 a
    · intro a
      by_cases ha : a = targetAgent
      · subst ha
        simp only [setMap_same, List.length_append, h4]
        simp
      · simp only [setMap_ne _ _ _ ha]; exact h.ratedIff a
  · rw [postReputation_ok_first comment proofCID h0 h1 h2 h3 (by simpa using h4)]
    constructor
    · intro a
      by_cases ha : a = targetAgent
      · subst ha
        simp only [setMap_same, h.scoreEq a, SCORE_MULTIPLIER, List.map_append,
          List.sum_append]
        simp [Nat.mul_add, Nat.mul_comm]
      · simp only [setMap_ne _ _ _ ha]; exact h.scoreEq a
    · intro a
      by_cases ha : a = targetAgent
      · subst ha
        simp only [setMap_same, List.length_append, List.length_cons,
          List.length_nil, h.countEq a]
      · simp only [setMap_ne _ _ _ ha]; exact h.countEq a
    · intro a
      by_cases ha : a = targetAgent
      · subst ha
        simp only [setMap_same, List.length_append, List.length_cons,
          List.length_nil, h.countEq2 a]
      · simp only [setMap_ne _ _ _ ha]; exact h.countEq2 a
    · intro a
      by_cases ha : a = targetAgent
      · subst ha
        simp only [setMap_same, List.length_append]
        simp
      · simp only [setMap_ne _ _ _ ha]; exact h.ratedIff a

/-- Every reachable reputation-registry state satisfies the invariant. -/
theorem repReach_inv {s : RepState} (h : RepReach s) : RepInv s := by
  induction h with
  | init => exact repInv_init
  | post targetAgent rating comment proofCID rater now _ ih =>
    exact postStep_inv targetAgent rating comment proofCID rater now _ ih

/-- The reversed-tail loop of `getRecentRatings` in closed form. -/
theorem range_map_getD_eq_reverse_drop (l : List Rating) (count : Nat)
    (hc : count ≤ l.length) :
    (List.range count).map (fun i => l.getD (l.length - 1 - i) default)
      = (l.drop (l.length - count)).reverse := by
  apply List.ext_getElem
  · rw [List.length_map, List.length_range, List.length_reverse, List.length_drop]
    omega
  · intro n h1 h2
    rw [List.length_map, List.length_range] at h1
    rw [List.getElem_map, List.getElem_range]
    rw [List.getElem_reverse, List.getElem_drop]
    rw [List.getD_eq_getElem?_getD,
      List.getElem?_eq_getElem (show l.length - 1 - n < l.length by omega),
      Option.getD_some]
    congr 1
    rw [List.length_drop]
    omega

theorem getRecentRatings_err (agent : Addr) {limit : Nat} (s : RepState)
    (h : limit = 0) :
    getRecentRatings agent limit s = .error .invalidLimit := by
  unfold getRecentRatings
  rw [if_pos h]

/-- `getRecentRatings` with a positive limit returns the last
`min limit total` ratings, most recent first. -/
theorem getRecentRatings_ok (agent : Addr) {limit : Nat} (s : RepState)
    (h : limit ≠ 0) :
    getRecentRatings agent limit s = .ok
      (((s.s_agentRatings agent).drop
        ((s.s_agentRatings agent).length
          - min limit (s.s_agentRatings agent).length)).reverse) := by
  unfold getRecentRatings
  rw [if_neg h]
  by_cases hn : (s.s_agentRatings agent).length = 0
  · rw [if_pos hn]
    have he : s.s_agentRatings agent = [] := List.length_eq_zero.1 hn
    rw [he]
    simp
  · rw [if_neg hn]
    have hcount : (if limit > (s.s_agentRatings agent).length
        then (s.s_agentRatings agent).length else limit)
          = min limit (s.s_agentRatings agent).length := by
      by_cases hgt : limit > (s.s_agentRatings agent).length
      · rw [if_pos hgt]; omega
      · rw [if_neg hgt]; omega
    simp only [hcount]
    rw [range_map_getD_eq_reverse_drop _ _ (min_le_right _ _)]

/-- `canRate` in closed form: the read-only mirror of `rateLimitCheck`. -/
theorem canRate_spec (rater targetAgent : Addr) (now : Nat) (s : RepState) :
    (¬ (s.s_lastRatingTime rater targetAgent ≠ 0 ∧
        now < s.s_lastRatingTime rater targetAgent + RATE_LIMIT_PERIOD) →
      canRate rater targetAgent now s = (true, 0)) ∧
    (s.s_lastRatingTime rater targetAgent ≠ 0 ∧
        now < s.s_lastRatingTime rater targetAgent + RATE_LIMIT_PERIOD →
      canRate rater targetAgent now s
        = (false, s.s_lastRatingTime rater targetAgent + RATE_LIMIT_PERIOD)) := by
  constructor
  · intro h
    unfold canRate
    by_cases h0 : s.s_lastRatingTime rater targetAgent = 0
    · rw [if_pos h0]
    · rw [if_neg h0]
      push_neg at h
      rw [if_pos (h h0)]
  · rintro ⟨h0, hlt⟩
    unfold canRate
    rw [if_neg h0, if_neg (by omega)]

/-! ### Small helpers for the claim statements -/

theorem string_length_zero_iff (s : String) : s.length = 0 ↔ s = "" := by
  constructor
  · intro h0
    cases s with
    | mk data =>
      cases data with
      | nil => rfl
      | cons c cs => simp [String.length] at h0
  · intro h; subst h; rfl

/-- With the other preconditions satisfied, `postReputation` raises
`RateLimitExceeded` exactly when the stored last-rating time is non-zero and
less than one day old. -/
theorem postReputation_ratelimit_iff (targetAgent : Addr) (rating : Nat)
    (comment proofCID : String) (rater : Addr) (now : Nat) (s : RepState)
    (h0 : targetAgent ≠ 0) (h1 : targetAgent ≠ rater)
    (h2 : ¬ (rating < MIN_RATING ∨ rating > MAX_RATING)) :
    postReputation targetAgent rating comment proofCID rater now s
        = .error (.rateLimitExceeded rater targetAgent
          (s.s_lastRatingTime rater targetAgent + RATE_LIMIT_PERIOD)) ↔
      (s.s_lastRatingTime rater targetAgent ≠ 0 ∧
        now < s.s_lastRatingTime rater targetAgent + RATE_LIMIT_PERIOD) := by
  constructor
  · intro herr
    by_cases hgate : s.s_lastRatingTime rater targetAgent ≠ 0 ∧
        now < s.s_lastRatingTime rater targetAgent + RATE_LIMIT_PERIOD
    · exact hgate
    · exfalso
      by_cases h4 : s.s_hasBeenRated targetAgent = true
      · rw [postReputation_ok_again comment proofCID h0 h1 h2 hgate h4] at herr
        simp at herr
      · rw [postReputation_ok_first comment proofCID h0 h1 h2 hgate
          (by simpa using h4)] at herr
        simp at herr
  · intro hgate
    exact postReputation_err_ratelimit comment proofCID h0 h1 h2 hgate

/-- A committed `postReputation` call never clears a first-rating flag. -/
theorem postStep_rated_mono (targetAgent : Addr) (rating : Nat)
    (comment proofCID : String) (rater : Addr) (now : Nat) (s : RepState)
    (a : Addr) (h : s.s_hasBeenRated a = true) :
    (postStep targetAgent rating comment proofCID rater now s).s_hasBeenRated a
      = true := by
  unfold postStep
  by_cases h0 : targetAgent = 0
  · rw [postReputation_err_target rating comment proofCID rater now s h0]; exact h
  by_cases h1 : targetAgent = rater
  · rw [postReputation_err_self rating comment proofCID now s h0 h1]; exact h
  by_cases h2 : rating < MIN_RATING ∨ rating > MAX_RATING
  · rw [postReputation_err_rating comment proofCID now s h0 h1 h2]; exact h
  by_cases h3 : s.s_lastRatingTime rater targetAgent ≠ 0 ∧
      now < s.s_lastRatingTime rater targetAgent + RATE_LIMIT_PERIOD
  · rw [postReputation_err_ratelimit comment proofCID h0 h1 h2 h3]; exact h
  by_cases h4 : s.s_hasBeenRated targetAgent = true
  · rw [postReputation_ok_again comment proofCID h0 h1 h2 h3 h4]; exact h
  · simp only [postReputation_ok_first comment proofCID h0 h1 h2 h3
      (by simpa using h4)]
    by_cases ha : a = targetAgent
    · subst ha; rw [setMap_same]
    · rw [setMap_ne _ _ _ ha]; exact h

/-- The rate-limit bookkeeping is scoped per (rater, target) pair: a
committed call aimed at a different target leaves the entry untouched. -/
theorem postStep_other_target (otherTarget : Addr) (rating : Nat)
    (comment proofCID : String) (rater' : Addr) (now : Nat) (s : RepState)
    (rater targetAgent : Addr) (h : otherTarget ≠ targetAgent) :
    (postStep otherTarget rating comment proofCID rater' now s).s_lastRatingTime
      rater targetAgent = s.s_lastRatingTime rater targetAgent := by
  unfold postStep
  by_cases h0 : otherTarget = 0
  · rw [postReputation_err_target rating comment proofCID rater' now s h0]
  by_cases h1 : otherTarget = rater'
  · rw [postReputation_err_self rating comment proofCID now s h0 h1]
  by_cases h2 : rating < MIN_RATING ∨ rating > MAX_RATING
  · rw [postReputation_err_rating comment proofCID now s h0 h1 h2]
  by_cases h3 : s.s_lastRatingTime rater' otherTarget ≠ 0 ∧
      now < s.s_lastRatingTime rater' otherTarget + RATE_LIMIT_PERIOD
  · rw [postReputation_err_ratelimit comment proofCID h0 h1 h2 h3]
  by_cases h4 : s.s_hasBeenRated otherTarget = true
  · simp only [postReputation_ok_again comment proofCID h0 h1 h2 h3 h4]
    by_cases hr : rater = rater'
    · subst hr
      rw [setMap_same, setMap_ne _ _ _ (fun hh => h hh.symm)]
    · rw [setMap_ne _ _ _ hr]
  · simp only [postReputation_ok_first comment proofCID h0 h1 h2 h3
      (by simpa using h4)]
    by_cases hr : rater = rater'
    · subst hr
      rw [setMap_same, setMap_ne _ _ _ (fun hh => h hh.symm)]
    · rw [setMap_ne _ _ _ hr]

/-! ## Claim theorems -/

/-- C1: after any sequence of `registerAgent`/`updateAgentCard` calls, for
every agent A and tag T: A appears in `getAgentsByCapability T` iff
`agentHasCapability A T` iff T appears in A's capability-tag list (returned
by `getAgentCapabilities` for registered agents); every agent's tag list has
no duplicates and no empty strings; A occurs at most once in each tag's
sequence; and registering with tags `["x","x","y"]` yields capabilities
`["x","y"]` and exactly one occurrence in the `"x"` index. -/
theorem claim_C1_capability_consistency {s : IdState} (h : IdReach s) :
    (∀ a t, (a ∈ getAgentsByCapability t s ↔ agentHasCapability a t s = true) ∧
      (agentHasCapability a t s = true ↔ t ∈ (s.s_agents a).capabilityTags)) ∧
    (∀ a, (s.s_agents a).isRegistered = true →
      getAgentCapabilities a s = .ok ((s.s_agents a).capabilityTags)) ∧
    (∀ a, (s.s_agents a).capabilityTags.Nodup) ∧
    (∀ a t, t ∈ (s.s_agents a).capabilityTags → t ≠ "") ∧
    (∀ t a, (getAgentsByCapability t s).count a ≤ 1) ∧
    getAgentCapabilities 7 (regStep "c" ["x", "x", "y"] 7 initIdState)
      = .ok ["x", "y"] ∧
    (getAgentsByCapability "x" (regStep "c" ["x", "x", "y"] 7 initIdState)).count 7
      = 1 := by
  have hinv := idReach_inv h
  refine ⟨?_, ?_, hinv.tagsNodup, ?_, ?_, rfl, rfl⟩
  · intro a t
    exact ⟨(hinv.idxIff a t).symm, hinv.memIff a t⟩
  · intro a hr
    unfold getAgentCapabilities
    rw [if_neg (not_not_intro hr)]
  · intro a t hm heq
    exact hinv.tagsNonempty a t hm (by rw [heq]; rfl)
  · intro t a
    exact List.nodup_iff_count_le_one.1 (hinv.arrNodup t) a

theorem claim_C1_witness :
    getAgentCapabilities 7 (regStep "c" ["x", "x", "y"] 7 initIdState)
      = .ok ["x", "y"] ∧
    (getAgentsByCapability "x" (regStep "c" ["x", "x", "y"] 7 initIdState)).count 7
      = 1 :=
  ⟨(claim_C1_capability_consistency
      (IdReach.register "c" ["x", "x", "y"] 7 IdReach.init)).2.2.2.2.2.1,
   (claim_C1_capability_consistency
      (IdReach.register "c" ["x", "x", "y"] 7 IdReach.init)).2.2.2.2.2.2⟩

/-- C2: `discoverAgents` fails with `EmptyCapabilityTags` iff the query is
empty; otherwise it returns the deduplicated union of the queried tags'
index sequences, in first-seen order scanning tags left to right, with the
card references positionally aligned; no agent appears twice; membership is
exactly "carries any queried tag"; and with no match it returns empty
arrays, not an error. -/
theorem claim_C2_discoverAgents (capabilityTags : List String) (s : IdState) :
    (discoverAgents capabilityTags s = .error .emptyCapabilityTags ↔
      capabilityTags = []) ∧
    (capabilityTags ≠ [] →
      discoverAgents capabilityTags s = .ok
        (firstSeenDedup (capabilityTags.flatMap s.s_capabilityToAgents),
         (firstSeenDedup (capabilityTags.flatMap s.s_capabilityToAgents)).map
           (fun a => (s.s_agents a).agentCardCID)) ∧
      (firstSeenDedup (capabilityTags.flatMap s.s_capabilityToAgents)).Nodup ∧
      (∀ a, a ∈ firstSeenDedup (capabilityTags.flatMap s.s_capabilityToAgents) ↔
        ∃ t ∈ capabilityTags, a ∈ getAgentsByCapability t s) ∧
      ((∀ t ∈ capabilityTags, getAgentsByCapability t s = []) →
        discoverAgents capabilityTags s = .ok ([], []))) := by
  constructor
  · constructor
    · intro herr
      by_cases he : capabilityTags = []
      · exact he
      · rw [discoverAgents_ok capabilityTags s he] at herr
        simp at herr
    · intro he
      exact discoverAgents_err capabilityTags s he
  · intro hne
    refine ⟨discoverAgents_ok capabilityTags s hne, firstSeenDedup_nodup _, ?_, ?_⟩
    · intro a
      rw [firstSeenDedup_mem, List.mem_flatMap]
      rfl
    · intro hempty
      have hflat : capabilityTags.flatMap s.s_capabilityToAgents = [] := by
        rw [List.flatMap_eq_nil_iff]
        intro t ht
        exact hempty t ht
      rw [discoverAgents_ok capabilityTags s hne, hflat]
      rfl

theorem claim_C2_witness :
    discoverAgents ["x", "y"] (regStep "c" ["x", "x", "y"] 7 initIdState)
      = .ok ([7], ["c"]) := by
  have h := (claim_C2_discoverAgents ["x", "y"]
    (regStep "c" ["x", "x", "y"] 7 initIdState)).2 (by simp)
  rw [h.1]
  rfl

/-- C3: for a registered caller and non-empty new CID, `updateAgentCard`
succeeds; afterwards `getAgentCard` returns exactly the new CID, the
caller's tag list is rebuilt from the new tags alone under the same
dedup/skip-empty rule as registration (all old tags were removed by
swap-and-pop before re-adding), every old tag not re-listed is absent from
the capability index, and every non-empty new tag is present. -/
theorem claim_C3_updateAgentCard (newCID : String) (newTags : List String)
    (caller : Addr) {s : IdState} (hreach : IdReach s)
    (hreg : (s.s_agents caller).isRegistered = true) (hcid : newCID ≠ "") :
    ∃ s', updateAgentCard newCID newTags caller s = .ok s' ∧
      getAgentCard caller s' = .ok newCID ∧
      (s'.s_agents caller).capabilityTags = addTagsSpec [] newTags ∧
      (∀ t, t ∈ (s.s_agents caller).capabilityTags → t ∉ newTags →
        caller ∉ getAgentsByCapability t s' ∧
          agentHasCapability caller t s' = false) ∧
      (∀ t, t ∈ newTags → t ≠ "" → caller ∈ getAgentsByCapability t s') := by
  have hinv := idReach_inv hreach
  have h0 : newCID.length ≠ 0 := fun hz =>
    hcid ((string_length_zero_iff newCID).1 hz)
  obtain ⟨s', heq, hinv', hcid', hreg', htags'⟩ :=
    updateAgentCard_success_spec newCID newTags caller s hreg h0 hinv
  refine ⟨s', heq, ?_, htags', ?_, ?_⟩
  · unfold getAgentCard
    rw [if_neg (not_not_intro hreg'), hcid']
  · intro t _ htnew
    have hnotin : t ∉ (s'.s_agents caller).capabilityTags := by
      rw [htags', addTagsSpec_mem]
      rintro (hx | hx)
      · simp at hx
      · exact htnew hx.1
    have hcap : s'.s_agentHasCapability caller t ≠ true := fun hc =>
      hnotin ((hinv'.memIff caller t).1 hc)
    constructor
    · intro hmem
      exact hcap ((hinv'.idxIff caller t).2 hmem)
    · simpa using hcap
  · intro t ht htne
    have htl : t.length ≠ 0 := fun hz => htne ((string_length_zero_iff t).1 hz)
    have hin : t ∈ (s'.s_agents caller).capabilityTags := by
      rw [htags', addTagsSpec_mem]
      exact Or.inr ⟨ht, htl⟩
    exact (hinv'.idxIff caller t).1 ((hinv'.memIff caller t).2 hin)

theorem claim_C3_witness :
    ∃ s', updateAgentCard "d" ["y"] 7 (regStep "c" ["x"] 7 initIdState) = .ok s' ∧
      getAgentCard 7 s' = .ok "d" ∧
      (s'.s_agents 7).capabilityTags = addTagsSpec [] ["y"] ∧
      (∀ t, t ∈ ((regStep "c" ["x"] 7 initIdState).s_agents 7).capabilityTags →
        t ∉ ["y"] → 7 ∉ getAgentsByCapability t s' ∧
          agentHasCapability 7 t s' = false) ∧
      (∀ t, t ∈ ["y"] → t ≠ "" → 7 ∈ getAgentsByCapability t s') :=
  claim_C3_updateAgentCard "d" ["y"] 7
    (IdReach.register "c" ["x"] 7 IdReach.init) rfl (by decide)

/-- C6: every failing call leaves the registry state unchanged.  In the
statement-by-statement (`Raw`) semantics, whenever `registerAgent`,
`updateAgentCard` or `postReputation` stops with an error, the state it
holds at that moment is exactly the input state: every check runs before any
write, so nothing is ever partially committed. -/
theorem claim_C6_atomicity :
    (∀ (cid : String) (tags : List String) (caller : Addr) (s : IdState)
        (e : IdErr),
      (registerAgentRaw cid tags caller s).2 = some e →
        (registerAgentRaw cid tags caller s).1 = s) ∧
    (∀ (cid : String) (tags : List String) (caller : Addr) (s : IdState)
        (e : IdErr),
      (updateAgentCardRaw cid tags caller s).2 = some e →
        (updateAgentCardRaw cid tags caller s).1 = s) ∧
    (∀ (targetAgent : Addr) (rating : Nat) (comment proofCID : String)
        (rater : Addr) (now : Nat) (s : RepState) (e : RepErr),
      (postReputationRaw targetAgent rating comment proofCID rater now s).2
          = some e →
        (postReputationRaw targetAgent rating comment proofCID rater now s).1
          = s) := by
  refine ⟨?_, ?_, ?_⟩
  · intro cid tags caller s e hsome
    unfold registerAgentRaw at hsome ⊢
    split_ifs at hsome ⊢ <;> simp_all
  · intro cid tags caller s e hsome
    unfold updateAgentCardRaw at hsome ⊢
    split_ifs at hsome ⊢ <;> simp_all
  · intro targetAgent rating comment proofCID rater now s e hsome
    unfold postReputationRaw at hsome ⊢
    split_ifs at hsome ⊢ <;> simp_all

theorem claim_C6_witness :
    (registerAgentRaw "" [] 1 initIdState).1 = initIdState ∧
    (updateAgentCardRaw "c" [] 1 initIdState).1 = initIdState ∧
    (postReputationRaw 0 5 "" "" 1 10 initRepState).1 = initRepState :=
  ⟨claim_C6_atomicity.1 "" [] 1 initIdState .invalidCID rfl,
   claim_C6_atomicity.2.1 "c" [] 1 initIdState (.agentNotRegistered 1) rfl,
   claim_C6_atomicity.2.2 0 5 "" "" 1 10 initRepState .invalidTargetAgent rfl⟩

/-- C7 counterexample: a caller who already has a record and passes an empty
card reference gets `InvalidCID`, not `AgentAlreadyRegistered` — the
`validCID` modifier runs before the registration check. -/
theorem claim_C7_counterexample :
    ((regStep "c" [] 1 initIdState).s_agents 1).isRegistered = true ∧
    registerAgent "" [] 1 (regStep "c" [] 1 initIdState) = .error .invalidCID ∧
    (Except.error IdErr.invalidCID : Except IdErr IdState)
      ≠ .error (.agentAlreadyRegistered 1) := by
  refine ⟨rfl, rfl, ?_⟩
  intro h
  injection h with h'
  cases h'

/-- C7 (amended): `registerAgent` checks the card reference first — an empty
`cardReference` always fails with `InvalidCID`, even for an
already-registered caller; with a non-empty reference it fails with
`AgentAlreadyRegistered` exactly when the caller already has a record; on
success it creates the record, appends the caller to the registered-agents
list and indexes the non-empty, non-duplicate tags in array order. -/
theorem claim_C7_register_errors (cid : String) (tags : List String)
    (caller : Addr) (s : IdState) :
    (cid = "" → registerAgent cid tags caller s = .error .invalidCID) ∧
    (cid ≠ "" → (s.s_agents caller).isRegistered = true →
      registerAgent cid tags caller s = .error (.agentAlreadyRegistered caller)) ∧
    (cid ≠ "" → (s.s_agents caller).isRegistered = false → IdReach s →
      ∃ s', registerAgent cid tags caller s = .ok s' ∧
        (s'.s_agents caller).agentCardCID = cid ∧
        (s'.s_agents caller).isRegistered = true ∧
        s'.s_registeredAgents = s.s_registeredAgents ++ [caller] ∧
        (s'.s_agents caller).capabilityTags = addTagsSpec [] tags) := by
  refine ⟨?_, ?_, ?_⟩
  · intro he
    exact registerAgent_err_cid tags caller s
      ((string_length_zero_iff cid).2 he)
  · intro hne hreg
    exact registerAgent_err_already tags
      (fun hz => hne ((string_length_zero_iff cid).1 hz)) hreg
  · intro hne hunreg hreach
    obtain ⟨s', heq, _, hc, hr, ht, hl⟩ := registerAgent_success_spec cid tags
      caller s (fun hz => hne ((string_length_zero_iff cid).1 hz)) hunreg
      (idReach_inv hreach)
    exact ⟨s', heq, hc, hr, hl, ht⟩

theorem claim_C7_witness :
    registerAgent "" [] 5 initIdState = .error .invalidCID :=
  (claim_C7_register_errors "" [] 5 initIdState).1 rfl

/-- C4: with the other preconditions satisfied, `postReputation` fails with
`RateLimitExceeded` — carrying the rater, the target and the next-allowed
time (last rating time + 1 day) — iff the rater's stored last-rating time
for this target is set and less than one day old; the limit is scoped per
(rater, target) pair, so a committed rating of a different target never
changes the stored entry; and concretely a rating at `t0 = 1000` succeeds, a
repeat at `t0 + 1 day - 1s` fails with `RateLimitExceeded 1 2 (t0 + 1 day)`,
and a repeat at `t0 + 1 day + 1s` succeeds, leaving `getRatingsCount = 2`. -/
theorem claim_C4_rate_limit :
    (∀ (rater targetAgent : Addr) (rating : Nat) (comment proofCID : String)
        (now : Nat) (s : RepState),
      targetAgent ≠ 0 → targetAgent ≠ rater →
      MIN_RATING ≤ rating → rating ≤ MAX_RATING →
      (postReputation targetAgent rating comment proofCID rater now s
          = .error (.rateLimitExceeded rater targetAgent
            (s.s_lastRatingTime rater targetAgent + RATE_LIMIT_PERIOD)) ↔
        (s.s_lastRatingTime rater targetAgent ≠ 0 ∧
          now < s.s_lastRatingTime rater targetAgent + RATE_LIMIT_PERIOD))) ∧
    (∀ (otherTarget : Addr) (rating : Nat) (comment proofCID : String)
        (rater' : Addr) (now : Nat) (s : RepState) (rater targetAgent : Addr),
      otherTarget ≠ targetAgent →
      (postStep otherTarget rating comment proofCID rater' now s).s_lastRatingTime
        rater targetAgent = s.s_lastRatingTime rater targetAgent) ∧
    (∃ s1, postReputation 2 5 "" "" 1 1000 initRepState = .ok s1) ∧
    postReputation 2 4 "" "" 1 87399 (postStep 2 5 "" "" 1 1000 initRepState)
      = .error (.rateLimitExceeded 1 2 87400) ∧
    (∃ s2, postReputation 2 4 "" "" 1 87401
        (postStep 2 5 "" "" 1 1000 initRepState) = .ok s2 ∧
      getRatingsCount 2 s2 = 2) := by
  refine ⟨?_, ?_, ⟨_, rfl⟩, rfl, ⟨_, rfl, rfl⟩⟩
  · intro rater targetAgent rating comment proofCID now s h0 h1 hmin hmax
    exact postReputation_ratelimit_iff targetAgent rating comment proofCID
      rater now s h0 h1 (by push_neg; exact ⟨hmin, hmax⟩)
  · intro otherTarget rating comment proofCID rater' now s rater targetAgent h
    exact postStep_other_target otherTarget rating comment proofCID rater'
      now s rater targetAgent h

theorem claim_C4_witness :
    postReputation 2 3 "" "" 1 87399 (postStep 2 5 "" "" 1 1000 initRepState)
      = .error (.rateLimitExceeded 1 2 87400) := by
  have h := (claim_C4_rate_limit.1 1 2 3 "" "" 87399
    (postStep 2 5 "" "" 1 1000 initRepState) (by decide) (by decide)
    (by decide) (by decide)).2 (by constructor <;> decide)
  exact h

/-- C5: `getReputationScore` returns `(0, 0)` for an agent with no ratings,
and otherwise the pair of (sum of posted rating values × 100, truncating
integer division by the number of ratings) and the number of ratings; it has
no error path, and ratings 5 and 4 on the same target give `(450, 2)`. -/
theorem claim_C5_reputation_score {s : RepState} (h : RepReach s) :
    (∀ a, getReputationScore a s =
      if getRatingsCount a s = 0 then (0, 0)
      else ((100 * (((s.s_agentRatings a).map Rating.rating).sum))
          / getRatingsCount a s,
        getRatingsCount a s)) ∧
    getReputationScore 2 (postStep 2 4 "" "" 1 87401
      (postStep 2 5 "" "" 1 1000 initRepState)) = (450, 2) := by
  have hinv := repReach_inv h
  refine ⟨?_, rfl⟩
  intro a
  unfold getReputationScore getRatingsCount
  simp only [hinv.countEq a, hinv.scoreEq a]

theorem claim_C5_witness :
    getReputationScore 2 (postStep 2 4 "" "" 1 87401
      (postStep 2 5 "" "" 1 1000 initRepState)) = (450, 2) :=
  (claim_C5_reputation_score (RepReach.post 2 4 "" "" 1 87401
    (RepReach.post 2 5 "" "" 1 1000 RepReach.init))).2

/-- C8: `getRecentRatings` fails with `InvalidLimit` iff the limit is zero;
with a positive limit it returns exactly `min limit totalRatings` ratings,
namely the reverse of the tail of the chronological list, and for an unrated
agent it returns the empty sequence without error. -/
theorem claim_C8_getRecentRatings (agent : Addr) (limit : Nat) (s : RepState) :
    (getRecentRatings agent limit s = .error .invalidLimit ↔ limit = 0) ∧
    (limit ≠ 0 →
      getRecentRatings agent limit s = .ok
        (((s.s_agentRatings agent).drop
          ((s.s_agentRatings agent).length
            - min limit (s.s_agentRatings agent).length)).reverse) ∧
      (∃ l, getRecentRatings agent limit s = .ok l ∧
        l.length = min limit (getRatingsCount agent s)) ∧
      (s.s_agentRatings agent = [] → getRecentRatings agent limit s = .ok [])) := by
  constructor
  · constructor
    · intro herr
      by_cases hz : limit = 0
      · exact hz
      · rw [getRecentRatings_ok agent s hz] at herr
        simp at herr
    · intro hz
      exact getRecentRatings_err agent s hz
  · intro hz
    refine ⟨getRecentRatings_ok agent s hz, ?_, ?_⟩
    · refine ⟨_, getRecentRatings_ok agent s hz, ?_⟩
      unfold getRatingsCount
      rw [List.length_reverse, List.length_drop]
      omega
    · intro hempty
      rw [getRecentRatings_ok agent s hz, hempty]
      simp

theorem claim_C8_witness :
    getRecentRatings 9 3 initRepState = .ok [] := by
  have h := ((claim_C8_getRecentRatings 9 3 initRepState).2 (by decide)).2.2 rfl
  exact h

/-- C9: `canRate` is a pure query returning `(true, 0)` exactly when the
rate-limit gate of `postReputation` would pass (never rated, or at least one
day elapsed), and `(false, last + 1 day)` otherwise; the second component is
0 whenever the first is true, and with the other preconditions satisfied,
`postReputation` fails with `RateLimitExceeded` iff `canRate` returns
false. -/
theorem claim_C9_canRate (rater targetAgent : Addr) (now : Nat) (s : RepState) :
    ((canRate rater targetAgent now s).1 = true ↔
      (s.s_lastRatingTime rater targetAgent = 0 ∨
        s.s_lastRatingTime rater targetAgent + RATE_LIMIT_PERIOD ≤ now)) ∧
    ((canRate rater targetAgent now s).1 = true →
      canRate rater targetAgent now s = (true, 0)) ∧
    ((canRate rater targetAgent now s).1 = false →
      canRate rater targetAgent now s
        = (false, s.s_lastRatingTime rater targetAgent + RATE_LIMIT_PERIOD) ∧
      s.s_lastRatingTime rater targetAgent ≠ 0 ∧
      now < s.s_lastRatingTime rater targetAgent + RATE_LIMIT_PERIOD) ∧
    (∀ (rating : Nat) (comment proofCID : String),
      targetAgent ≠ 0 → targetAgent ≠ rater →
      MIN_RATING ≤ rating → rating ≤ MAX_RATING →
      ((canRate rater targetAgent now s).1 = false ↔
        postReputation targetAgent rating comment proofCID rater now s
          = .error (.rateLimitExceeded rater targetAgent
            (s.s_lastRatingTime rater targetAgent + RATE_LIMIT_PERIOD)))) := by
  by_cases hgate : s.s_lastRatingTime rater targetAgent ≠ 0 ∧
      now < s.s_lastRatingTime rater targetAgent + RATE_LIMIT_PERIOD
  · have hc := (canRate_spec rater targetAgent now s).2 hgate
    refine ⟨?_, ?_, ?_, ?_⟩
    · rw [hc]
      simp only [Bool.false_eq_true, false_iff]
      push_neg
      exact ⟨hgate.1, by omega⟩
    · intro ht; rw [hc] at ht; simp at ht
    · intro _; exact ⟨hc, hgate⟩
    · intro rating comment proofCID h0 h1 hmin hmax
      rw [hc]
      simp only [true_iff]
      exact (postReputation_ratelimit_iff targetAgent rating comment proofCID
        rater now s h0 h1 (by push_neg; exact ⟨hmin, hmax⟩)).2 hgate
  · have hc := (canRate_spec rater targetAgent now s).1 hgate
    refine ⟨?_, ?_, ?_, ?_⟩
    · rw [hc]
      simp only [true_iff]
      by_cases h0 : s.s_lastRatingTime rater targetAgent = 0
      · exact Or.inl h0
      · push_neg at hgate
        exact Or.inr (hgate h0)
    · intro _; exact hc
    · intro hf; rw [hc] at hf; simp at hf
    · intro rating comment proofCID h0 h1 hmin hmax
      rw [hc]
      simp only [Bool.true_eq_false, false_iff]
      intro herr
      exact hgate ((postReputation_ratelimit_iff targetAgent rating comment
        proofCID rater now s h0 h1 (by push_neg; exact ⟨hmin, hmax⟩)).1 herr)

theorem claim_C9_witness :
    canRate 1 2 0 initRepState = (true, 0) :=
  (claim_C9_canRate 1 2 0 initRepState).2.1 rfl

/-- C10: in every reachable reputation-registry state, `hasBeenRated` is
true iff `getRatingsCount` is positive iff the stored `totalRatings`
aggregate is positive, and once true it stays true under any further
committed `postReputation` call. -/
theorem claim_C10_hasBeenRated {s : RepState} (h : RepReach s) :
    (∀ a, (hasBeenRated a s = true ↔ 0 < getRatingsCount a s) ∧
      (hasBeenRated a s = true ↔
        0 < (s.s_agentReputations a).totalRatings)) ∧
    (∀ (a targetAgent : Addr) (rating : Nat) (comment proofCID : String)
        (rater : Addr) (now : Nat),
      hasBeenRated a s = true →
      hasBeenRated a (postStep targetAgent rating comment proofCID rater now s)
        = true) := by
  have hinv := repReach_inv h
  constructor
  · intro a
    constructor
    · unfold hasBeenRated getRatingsCount
      rw [hinv.ratedIff a]
      omega
    · unfold hasBeenRated
      rw [hinv.ratedIff a, hinv.countEq a]
      omega
  · intro a targetAgent rating comment proofCID rater now hrated
    exact postStep_rated_mono targetAgent rating comment proofCID rater now
      s a hrated

theorem claim_C10_witness :
    hasBeenRated 2 (postStep 2 5 "" "" 1 1000 initRepState) = true ∧
    0 < getRatingsCount 2 (postStep 2 5 "" "" 1 1000 initRepState) :=
  ⟨rfl, ((claim_C10_hasBeenRated
      (RepReach.post 2 5 "" "" 1 1000 RepReach.init)).1 2).1.1 rfl⟩

end Rachax
